import Mathlib

/-
  Verification of `hungarian_method.c` (rummelsworth/hungarian_method).

  This file gives a shallow embedding of the C sources into Lean 4 and proves
  properties of the embedded program.

  Modelling conventions:
  * C `int` values are modelled as `Int`; the C constant `INT_MAX` is kept as
    the literal 2147483647.  C integer division (`/`, truncation toward zero)
    is modelled by `Int.tdiv` (wrapped as `idiv`).
  * All arrays of the solver state (`mate`, `alpha`, `beta`, `slack`, `nhbor`,
    `count`, `exposed`, `label`, and the flat cost buffer `c`) are modelled as
    total maps `Int → Int`, updated with `Function.update`.  The `beta`,
    `slack` and `nhbor` arrays are indexed by `j - n` for a U-vertex `j`,
    exactly as the C macros `BETA`/`SLACK`/`NHBOR` do.
  * The stack `Q` is a `List Int` (push = cons, pop = head), the arc list `A`
    a `List (Int × Int)` in insertion order (`add_arc` appends at the end,
    and `hm_search` scans it front to back, matching the C index loop).
  * `while` loops whose bound is not structural receive an explicit fuel
    parameter; the fuel values used by the embedded `hungarian_method` are
    generous polynomial bounds and play no role in any theorem below.
  * `malloc` failure of `hm_data_internal_allocate` is modelled by the boolean
    oracle parameter `allocOk` of `hungarian_method`: the C function returns
    `NULL` (here `none`) before touching the caller's buffers exactly when
    allocation fails.
-/

/-- C `enum { blank = -1 }`. -/
def blank : Int := -1

/-- The C constant `INT_MAX` for 32-bit `int`. -/
def INT_MAX : Int := 2147483647

/-- C integer division on `int` operands: truncation toward zero. -/
def idiv (a b : Int) : Int := a.tdiv b

/-- The solver state: the struct `hm_data_` of `hungarian_method.c`
(caller-provided `mate`, `c`, `n` plus the internally allocated arrays). -/
structure HMState where
  mate : Int → Int
  c : Int → Int
  n : Int
  q : List Int
  a : List (Int × Int)
  alpha : Int → Int
  beta : Int → Int
  slack : Int → Int
  nhbor : Int → Int
  count : Int → Int
  exposed : Int → Int
  label : Int → Int

/-- The index list of the C loop `for EACH_V( i )`: `i = 0, …, n-1`. -/
def eachV (n : Int) : List Int := (List.range n.toNat).map Nat.cast

/-- The index list of the C loop `for EACH_U( j )`: `j = n, …, 2n-1`. -/
def eachU (n : Int) : List Int := (List.range n.toNat).map (fun k => n + Nat.cast k)

/-- C macro `MATE( i_ )`. -/
def MATE (s : HMState) (i : Int) : Int := s.mate i

/-- C macro `C( i_, j_ )`: flat cost-buffer access `c[ V(i)*N + U(j) ]`. -/
def Cmat (s : HMState) (i j : Int) : Int := s.c (i * s.n + (j - s.n))

/-- C macro `ALPHA( i_ )`. -/
def ALPHA (s : HMState) (i : Int) : Int := s.alpha i

/-- C macro `BETA( j_ )` (`beta[ U(j) ]`, i.e. index `j - n`). -/
def BETA (s : HMState) (j : Int) : Int := s.beta (j - s.n)

/-- C macro `SLACK( j_ )`. -/
def SLACK (s : HMState) (j : Int) : Int := s.slack (j - s.n)

/-- C macro `NHBOR( j_ )`. -/
def NHBOR (s : HMState) (j : Int) : Int := s.nhbor (j - s.n)

/-- C macro `COUNT( i_ )`. -/
def COUNT (s : HMState) (i : Int) : Int := s.count i

/-- C macro `EXPOSED( i_ )`. -/
def EXPOSED (s : HMState) (i : Int) : Int := s.exposed i

/-- C macro `LABEL( i_ )`. -/
def LABEL (s : HMState) (i : Int) : Int := s.label i

/-- Assignment `MATE( i_ ) = v`. -/
def setMate (s : HMState) (i v : Int) : HMState :=
  { s with mate := Function.update s.mate i v }

/-- Assignment `ALPHA( i_ ) = v`. -/
def setAlpha (s : HMState) (i v : Int) : HMState :=
  { s with alpha := Function.update s.alpha i v }

/-- Assignment `BETA( j_ ) = v`. -/
def setBeta (s : HMState) (j v : Int) : HMState :=
  { s with beta := Function.update s.beta (j - s.n) v }

/-- Assignment `SLACK( j_ ) = v`. -/
def setSlack (s : HMState) (j v : Int) : HMState :=
  { s with slack := Function.update s.slack (j - s.n) v }

/-- Assignment `NHBOR( j_ ) = v`. -/
def setNhbor (s : HMState) (j v : Int) : HMState :=
  { s with nhbor := Function.update s.nhbor (j - s.n) v }

/-- Assignment `COUNT( i_ ) = v`. -/
def setCount (s : HMState) (i v : Int) : HMState :=
  { s with count := Function.update s.count i v }

/-- Assignment `EXPOSED( i_ ) = v`. -/
def setExposed (s : HMState) (i v : Int) : HMState :=
  { s with exposed := Function.update s.exposed i v }

/-- Assignment `LABEL( i_ ) = v`. -/
def setLabel (s : HMState) (i v : Int) : HMState :=
  { s with label := Function.update s.label i v }

/-- `stack_push( &Q, x )`. -/
def stack_push (s : HMState) (x : Int) : HMState := { s with q := x :: s.q }

/-- `add_arc( &A, x, y )`. -/
def add_arc (s : HMState) (x y : Int) : HMState := { s with a := s.a ++ [(x, y)] }

/-! ### Projection lemmas for the assignment helpers -/

@[simp] lemma setMate_mate (s : HMState) (i v : Int) : (setMate s i v).mate = Function.update s.mate i v := rfl
@[simp] lemma setMate_c (s : HMState) (i v : Int) : (setMate s i v).c = s.c := rfl
@[simp] lemma setMate_n (s : HMState) (i v : Int) : (setMate s i v).n = s.n := rfl
@[simp] lemma setMate_q (s : HMState) (i v : Int) : (setMate s i v).q = s.q := rfl
@[simp] lemma setMate_a (s : HMState) (i v : Int) : (setMate s i v).a = s.a := rfl
@[simp] lemma setMate_alpha (s : HMState) (i v : Int) : (setMate s i v).alpha = s.alpha := rfl
@[simp] lemma setMate_beta (s : HMState) (i v : Int) : (setMate s i v).beta = s.beta := rfl
@[simp] lemma setMate_slack (s : HMState) (i v : Int) : (setMate s i v).slack = s.slack := rfl
@[simp] lemma setMate_nhbor (s : HMState) (i v : Int) : (setMate s i v).nhbor = s.nhbor := rfl
@[simp] lemma setMate_count (s : HMState) (i v : Int) : (setMate s i v).count = s.count := rfl
@[simp] lemma setMate_exposed (s : HMState) (i v : Int) : (setMate s i v).exposed = s.exposed := rfl
@[simp] lemma setMate_label (s : HMState) (i v : Int) : (setMate s i v).label = s.label := rfl

@[simp] lemma setAlpha_mate (s : HMState) (i v : Int) : (setAlpha s i v).mate = s.mate := rfl
@[simp] lemma setAlpha_c (s : HMState) (i v : Int) : (setAlpha s i v).c = s.c := rfl
@[simp] lemma setAlpha_n (s : HMState) (i v : Int) : (setAlpha s i v).n = s.n := rfl
@[simp] lemma setAlpha_q (s : HMState) (i v : Int) : (setAlpha s i v).q = s.q := rfl
@[simp] lemma setAlpha_a (s : HMState) (i v : Int) : (setAlpha s i v).a = s.a := rfl
@[simp] lemma setAlpha_alpha (s : HMState) (i v : Int) : (setAlpha s i v).alpha = Function.update s.alpha i v := rfl
@[simp] lemma setAlpha_beta (s : HMState) (i v : Int) : (setAlpha s i v).beta = s.beta := rfl
@[simp] lemma setAlpha_slack (s : HMState) (i v : Int) : (setAlpha s i v).slack = s.slack := rfl
@[simp] lemma setAlpha_nhbor (s : HMState) (i v : Int) : (setAlpha s i v).nhbor = s.nhbor := rfl
@[simp] lemma setAlpha_count (s : HMState) (i v : Int) : (setAlpha s i v).count = s.count := rfl
@[simp] lemma setAlpha_exposed (s : HMState) (i v : Int) : (setAlpha s i v).exposed = s.exposed := rfl
@[simp] lemma setAlpha_label (s : HMState) (i v : Int) : (setAlpha s i v).label = s.label := rfl

@[simp] lemma setBeta_mate (s : HMState) (j v : Int) : (setBeta s j v).mate = s.mate := rfl
@[simp] lemma setBeta_c (s : HMState) (j v : Int) : (setBeta s j v).c = s.c := rfl
@[simp] lemma setBeta_n (s : HMState) (j v : Int) : (setBeta s j v).n = s.n := rfl
@[simp] lemma setBeta_q (s : HMState) (j v : Int) : (setBeta s j v).q = s.q := rfl
@[simp] lemma setBeta_a (s : HMState) (j v : Int) : (setBeta s j v).a = s.a := rfl
@[simp] lemma setBeta_alpha (s : HMState) (j v : Int) : (setBeta s j v).alpha = s.alpha := rfl
@[simp] lemma setBeta_beta (s : HMState) (j v : Int) : (setBeta s j v).beta = Function.update s.beta (j - s.n) v := rfl
@[simp] lemma setBeta_slack (s : HMState) (j v : Int) : (setBeta s j v).slack = s.slack := rfl
@[simp] lemma setBeta_nhbor (s : HMState) (j v : Int) : (setBeta s j v).nhbor = s.nhbor := rfl
@[simp] lemma setBeta_count (s : HMState) (j v : Int) : (setBeta s j v).count = s.count := rfl
@[simp] lemma setBeta_exposed (s : HMState) (j v : Int) : (setBeta s j v).exposed = s.exposed := rfl
@[simp] lemma setBeta_label (s : HMState) (j v : Int) : (setBeta s j v).label = s.label := rfl

@[simp] lemma setSlack_mate (s : HMState) (j v : Int) : (setSlack s j v).mate = s.mate := rfl
@[simp] lemma setSlack_c (s : HMState) (j v : Int) : (setSlack s j v).c = s.c := rfl
@[simp] lemma setSlack_n (s : HMState) (j v : Int) : (setSlack s j v).n = s.n := rfl
@[simp] lemma setSlack_q (s : HMState) (j v : Int) : (setSlack s j v).q = s.q := rfl
@[simp] lemma setSlack_a (s : HMState) (j v : Int) : (setSlack s j v).a = s.a := rfl
@[simp] lemma setSlack_alpha (s : HMState) (j v : Int) : (setSlack s j v).alpha = s.alpha := rfl
@[simp] lemma setSlack_beta (s : HMState) (j v : Int) : (setSlack s j v).beta = s.beta := rfl
@[simp] lemma setSlack_slack (s : HMState) (j v : Int) : (setSlack s j v).slack = Function.update s.slack (j - s.n) v := rfl
@[simp] lemma setSlack_nhbor (s : HMState) (j v : Int) : (setSlack s j v).nhbor = s.nhbor := rfl
@[simp] lemma setSlack_count (s : HMState) (j v : Int) : (setSlack s j v).count = s.count := rfl
@[simp] lemma setSlack_exposed (s : HMState) (j v : Int) : (setSlack s j v).exposed = s.exposed := rfl
@[simp] lemma setSlack_label (s : HMState) (j v : Int) : (setSlack s j v).label = s.label := rfl

@[simp] lemma setNhbor_mate (s : HMState) (j v : Int) : (setNhbor s j v).mate = s.mate := rfl
@[simp] lemma setNhbor_c (s : HMState) (j v : Int) : (setNhbor s j v).c = s.c := rfl
@[simp] lemma setNhbor_n (s : HMState) (j v : Int) : (setNhbor s j v).n = s.n := rfl
@[simp] lemma setNhbor_q (s : HMState) (j v : Int) : (setNhbor s j v).q = s.q := rfl
@[simp] lemma setNhbor_a (s : HMState) (j v : Int) : (setNhbor s j v).a = s.a := rfl
@[simp] lemma setNhbor_alpha (s : HMState) (j v : Int) : (setNhbor s j v).alpha = s.alpha := rfl
@[simp] lemma setNhbor_beta (s : HMState) (j v : Int) : (setNhbor s j v).beta = s.beta := rfl
@[simp] lemma setNhbor_slack (s : HMState) (j v : Int) : (setNhbor s j v).slack = s.slack := rfl
@[simp] lemma setNhbor_nhbor (s : HMState) (j v : Int) : (setNhbor s j v).nhbor = Function.update s.nhbor (j - s.n) v := rfl
@[simp] lemma setNhbor_count (s : HMState) (j v : Int) : (setNhbor s j v).count = s.count := rfl
@[simp] lemma setNhbor_exposed (s : HMState) (j v : Int) : (setNhbor s j v).exposed = s.exposed := rfl
@[simp] lemma setNhbor_label (s : HMState) (j v : Int) : (setNhbor s j v).label = s.label := rfl

@[simp] lemma setCount_mate (s : HMState) (i v : Int) : (setCount s i v).mate = s.mate := rfl
@[simp] lemma setCount_c (s : HMState) (i v : Int) : (setCount s i v).c = s.c := rfl
@[simp] lemma setCount_n (s : HMState) (i v : Int) : (setCount s i v).n = s.n := rfl
@[simp] lemma setCount_q (s : HMState) (i v : Int) : (setCount s i v).q = s.q := rfl
@[simp] lemma setCount_a (s : HMState) (i v : Int) : (setCount s i v).a = s.a := rfl
@[simp] lemma setCount_alpha (s : HMState) (i v : Int) : (setCount s i v).alpha = s.alpha := rfl
@[simp] lemma setCount_beta (s : HMState) (i v : Int) : (setCount s i v).beta = s.beta := rfl
@[simp] lemma setCount_slack (s : HMState) (i v : Int) : (setCount s i v).slack = s.slack := rfl
@[simp] lemma setCount_nhbor (s : HMState) (i v : Int) : (setCount s i v).nhbor = s.nhbor := rfl
@[simp] lemma setCount_count (s : HMState) (i v : Int) : (setCount s i v).count = Function.update s.count i v := rfl
@[simp] lemma setCount_exposed (s : HMState) (i v : Int) : (setCount s i v).exposed = s.exposed := rfl
@[simp] lemma setCount_label (s : HMState) (i v : Int) : (setCount s i v).label = s.label := rfl

@[simp] lemma setExposed_mate (s : HMState) (i v : Int) : (setExposed s i v).mate = s.mate := rfl
@[simp] lemma setExposed_c (s : HMState) (i v : Int) : (setExposed s i v).c = s.c := rfl
@[simp] lemma setExposed_n (s : HMState) (i v : Int) : (setExposed s i v).n = s.n := rfl
@[simp] lemma setExposed_q (s : HMState) (i v : Int) : (setExposed s i v).q = s.q := rfl
@[simp] lemma setExposed_a (s : HMState) (i v : Int) : (setExposed s i v).a = s.a := rfl
@[simp] lemma setExposed_alpha (s : HMState) (i v : Int) : (setExposed s i v).alpha = s.alpha := rfl
@[simp] lemma setExposed_beta (s : HMState) (i v : Int) : (setExposed s i v).beta = s.beta := rfl
@[simp] lemma setExposed_slack (s : HMState) (i v : Int) : (setExposed s i v).slack = s.slack := rfl
@[simp] lemma setExposed_nhbor (s : HMState) (i v : Int) : (setExposed s i v).nhbor = s.nhbor := rfl
@[simp] lemma setExposed_count (s : HMState) (i v : Int) : (setExposed s i v).count = s.count := rfl
@[simp] lemma setExposed_exposed (s : HMState) (i v : Int) : (setExposed s i v).exposed = Function.update s.exposed i v := rfl
@[simp] lemma setExposed_label (s : HMState) (i v : Int) : (setExposed s i v).label = s.label := rfl

@[simp] lemma setLabel_mate (s : HMState) (i v : Int) : (setLabel s i v).mate = s.mate := rfl
@[simp] lemma setLabel_c (s : HMState) (i v : Int) : (setLabel s i v).c = s.c := rfl
@[simp] lemma setLabel_n (s : HMState) (i v : Int) : (setLabel s i v).n = s.n := rfl
@[simp] lemma setLabel_q (s : HMState) (i v : Int) : (setLabel s i v).q = s.q := rfl
@[simp] lemma setLabel_a (s : HMState) (i v : Int) : (setLabel s i v).a = s.a := rfl
@[simp] lemma setLabel_alpha (s : HMState) (i v : Int) : (setLabel s i v).alpha = s.alpha := rfl
@[simp] lemma setLabel_beta (s : HMState) (i v : Int) : (setLabel s i v).beta = s.beta := rfl
@[simp] lemma setLabel_slack (s : HMState) (i v : Int) : (setLabel s i v).slack = s.slack := rfl
@[simp] lemma setLabel_nhbor (s : HMState) (i v : Int) : (setLabel s i v).nhbor = s.nhbor := rfl
@[simp] lemma setLabel_count (s : HMState) (i v : Int) : (setLabel s i v).count = s.count := rfl
@[simp] lemma setLabel_exposed (s : HMState) (i v : Int) : (setLabel s i v).exposed = s.exposed := rfl
@[simp] lemma setLabel_label (s : HMState) (i v : Int) : (setLabel s i v).label = Function.update s.label i v := rfl

@[simp] lemma stack_push_mate (s : HMState) (x : Int) : (stack_push s x).mate = s.mate := rfl
@[simp] lemma stack_push_c (s : HMState) (x : Int) : (stack_push s x).c = s.c := rfl
@[simp] lemma stack_push_n (s : HMState) (x : Int) : (stack_push s x).n = s.n := rfl
@[simp] lemma stack_push_q (s : HMState) (x : Int) : (stack_push s x).q = x :: s.q := rfl
@[simp] lemma stack_push_a (s : HMState) (x : Int) : (stack_push s x).a = s.a := rfl
@[simp] lemma stack_push_alpha (s : HMState) (x : Int) : (stack_push s x).alpha = s.alpha := rfl
@[simp] lemma stack_push_beta (s : HMState) (x : Int) : (stack_push s x).beta = s.beta := rfl
@[simp] lemma stack_push_slack (s : HMState) (x : Int) : (stack_push s x).slack = s.slack := rfl
@[simp] lemma stack_push_nhbor (s : HMState) (x : Int) : (stack_push s x).nhbor = s.nhbor := rfl
@[simp] lemma stack_push_count (s : HMState) (x : Int) : (stack_push s x).count = s.count := rfl
@[simp] lemma stack_push_exposed (s : HMState) (x : Int) : (stack_push s x).exposed = s.exposed := rfl
@[simp] lemma stack_push_label (s : HMState) (x : Int) : (stack_push s x).label = s.label := rfl

@[simp] lemma add_arc_mate (s : HMState) (x y : Int) : (add_arc s x y).mate = s.mate := rfl
@[simp] lemma add_arc_c (s : HMState) (x y : Int) : (add_arc s x y).c = s.c := rfl
@[simp] lemma add_arc_n (s : HMState) (x y : Int) : (add_arc s x y).n = s.n := rfl
@[simp] lemma add_arc_q (s : HMState) (x y : Int) : (add_arc s x y).q = s.q := rfl
@[simp] lemma add_arc_a (s : HMState) (x y : Int) : (add_arc s x y).a = s.a ++ [(x, y)] := rfl
@[simp] lemma add_arc_alpha (s : HMState) (x y : Int) : (add_arc s x y).alpha = s.alpha := rfl
@[simp] lemma add_arc_beta (s : HMState) (x y : Int) : (add_arc s x y).beta = s.beta := rfl
@[simp] lemma add_arc_slack (s : HMState) (x y : Int) : (add_arc s x y).slack = s.slack := rfl
@[simp] lemma add_arc_nhbor (s : HMState) (x y : Int) : (add_arc s x y).nhbor = s.nhbor := rfl
@[simp] lemma add_arc_count (s : HMState) (x y : Int) : (add_arc s x y).count = s.count := rfl
@[simp] lemma add_arc_exposed (s : HMState) (x y : Int) : (add_arc s x y).exposed = s.exposed := rfl
@[simp] lemma add_arc_label (s : HMState) (x y : Int) : (add_arc s x y).label = s.label := rfl


/-! ### Accessor/assignment interaction lemmas -/

@[simp] lemma MATE_setMate (s : HMState) (i v : Int) (z : Int) : MATE (setMate s i v) z = if z = i then v else MATE s z := by
  simp [MATE, setMate, Function.update_apply]
@[simp] lemma MATE_setAlpha (s : HMState) (i v : Int) (z : Int) : MATE (setAlpha s i v) z = MATE s z := rfl
@[simp] lemma MATE_setBeta (s : HMState) (j v : Int) (z : Int) : MATE (setBeta s j v) z = MATE s z := rfl
@[simp] lemma MATE_setSlack (s : HMState) (j v : Int) (z : Int) : MATE (setSlack s j v) z = MATE s z := rfl
@[simp] lemma MATE_setNhbor (s : HMState) (j v : Int) (z : Int) : MATE (setNhbor s j v) z = MATE s z := rfl
@[simp] lemma MATE_setCount (s : HMState) (i v : Int) (z : Int) : MATE (setCount s i v) z = MATE s z := rfl
@[simp] lemma MATE_setExposed (s : HMState) (i v : Int) (z : Int) : MATE (setExposed s i v) z = MATE s z := rfl
@[simp] lemma MATE_setLabel (s : HMState) (i v : Int) (z : Int) : MATE (setLabel s i v) z = MATE s z := rfl
@[simp] lemma MATE_stack_push (s : HMState) (p : Int) (z : Int) : MATE (stack_push s p) z = MATE s z := rfl
@[simp] lemma MATE_add_arc (s : HMState) (p r : Int) (z : Int) : MATE (add_arc s p r) z = MATE s z := rfl

@[simp] lemma ALPHA_setMate (s : HMState) (i v : Int) (z : Int) : ALPHA (setMate s i v) z = ALPHA s z := rfl
@[simp] lemma ALPHA_setAlpha (s : HMState) (i v : Int) (z : Int) : ALPHA (setAlpha s i v) z = if z = i then v else ALPHA s z := by
  simp [ALPHA, setAlpha, Function.update_apply]
@[simp] lemma ALPHA_setBeta (s : HMState) (j v : Int) (z : Int) : ALPHA (setBeta s j v) z = ALPHA s z := rfl
@[simp] lemma ALPHA_setSlack (s : HMState) (j v : Int) (z : Int) : ALPHA (setSlack s j v) z = ALPHA s z := rfl
@[simp] lemma ALPHA_setNhbor (s : HMState) (j v : Int) (z : Int) : ALPHA (setNhbor s j v) z = ALPHA s z := rfl
@[simp] lemma ALPHA_setCount (s : HMState) (i v : Int) (z : Int) : ALPHA (setCount s i v) z = ALPHA s z := rfl
@[simp] lemma ALPHA_setExposed (s : HMState) (i v : Int) (z : Int) : ALPHA (setExposed s i v) z = ALPHA s z := rfl
@[simp] lemma ALPHA_setLabel (s : HMState) (i v : Int) (z : Int) : ALPHA (setLabel s i v) z = ALPHA s z := rfl
@[simp] lemma ALPHA_stack_push (s : HMState) (p : Int) (z : Int) : ALPHA (stack_push s p) z = ALPHA s z := rfl
@[simp] lemma ALPHA_add_arc (s : HMState) (p r : Int) (z : Int) : ALPHA (add_arc s p r) z = ALPHA s z := rfl

@[simp] lemma BETA_setMate (s : HMState) (i v : Int) (z : Int) : BETA (setMate s i v) z = BETA s z := rfl
@[simp] lemma BETA_setAlpha (s : HMState) (i v : Int) (z : Int) : BETA (setAlpha s i v) z = BETA s z := rfl
@[simp] lemma BETA_setBeta (s : HMState) (j v : Int) (z : Int) : BETA (setBeta s j v) z = if z - s.n = j - s.n then v else BETA s z := by
  simp [BETA, setBeta, Function.update_apply]
@[simp] lemma BETA_setSlack (s : HMState) (j v : Int) (z : Int) : BETA (setSlack s j v) z = BETA s z := rfl
@[simp] lemma BETA_setNhbor (s : HMState) (j v : Int) (z : Int) : BETA (setNhbor s j v) z = BETA s z := rfl
@[simp] lemma BETA_setCount (s : HMState) (i v : Int) (z : Int) : BETA (setCount s i v) z = BETA s z := rfl
@[simp] lemma BETA_setExposed (s : HMState) (i v : Int) (z : Int) : BETA (setExposed s i v) z = BETA s z := rfl
@[simp] lemma BETA_setLabel (s : HMState) (i v : Int) (z : Int) : BETA (setLabel s i v) z = BETA s z := rfl
@[simp] lemma BETA_stack_push (s : HMState) (p : Int) (z : Int) : BETA (stack_push s p) z = BETA s z := rfl
@[simp] lemma BETA_add_arc (s : HMState) (p r : Int) (z : Int) : BETA (add_arc s p r) z = BETA s z := rfl

@[simp] lemma SLACK_setMate (s : HMState) (i v : Int) (z : Int) : SLACK (setMate s i v) z = SLACK s z := rfl
@[simp] lemma SLACK_setAlpha (s : HMState) (i v : Int) (z : Int) : SLACK (setAlpha s i v) z = SLACK s z := rfl
@[simp] lemma SLACK_setBeta (s : HMState) (j v : Int) (z : Int) : SLACK (setBeta s j v) z = SLACK s z := rfl
@[simp] lemma SLACK_setSlack (s : HMState) (j v : Int) (z : Int) : SLACK (setSlack s j v) z = if z - s.n = j - s.n then v else SLACK s z := by
  simp [SLACK, setSlack, Function.update_apply]
@[simp] lemma SLACK_setNhbor (s : HMState) (j v : Int) (z : Int) : SLACK (setNhbor s j v) z = SLACK s z := rfl
@[simp] lemma SLACK_setCount (s : HMState) (i v : Int) (z : Int) : SLACK (setCount s i v) z = SLACK s z := rfl
@[simp] lemma SLACK_setExposed (s : HMState) (i v : Int) (z : Int) : SLACK (setExposed s i v) z = SLACK s z := rfl
@[simp] lemma SLACK_setLabel (s : HMState) (i v : Int) (z : Int) : SLACK (setLabel s i v) z = SLACK s z := rfl
@[simp] lemma SLACK_stack_push (s : HMState) (p : Int) (z : Int) : SLACK (stack_push s p) z = SLACK s z := rfl
@[simp] lemma SLACK_add_arc (s : HMState) (p r : Int) (z : Int) : SLACK (add_arc s p r) z = SLACK s z := rfl

@[simp] lemma NHBOR_setMate (s : HMState) (i v : Int) (z : Int) : NHBOR (setMate s i v) z = NHBOR s z := rfl
@[simp] lemma NHBOR_setAlpha (s : HMState) (i v : Int) (z : Int) : NHBOR (setAlpha s i v) z = NHBOR s z := rfl
@[simp] lemma NHBOR_setBeta (s : HMState) (j v : Int) (z : Int) : NHBOR (setBeta s j v) z = NHBOR s z := rfl
@[simp] lemma NHBOR_setSlack (s : HMState) (j v : Int) (z : Int) : NHBOR (setSlack s j v) z = NHBOR s z := rfl
@[simp] lemma NHBOR_setNhbor (s : HMState) (j v : Int) (z : Int) : NHBOR (setNhbor s j v) z = if z - s.n = j - s.n then v else NHBOR s z := by
  simp [NHBOR, setNhbor, Function.update_apply]
@[simp] lemma NHBOR_setCount (s : HMState) (i v : Int) (z : Int) : NHBOR (setCount s i v) z = NHBOR s z := rfl
@[simp] lemma NHBOR_setExposed (s : HMState) (i v : Int) (z : Int) : NHBOR (setExposed s i v) z = NHBOR s z := rfl
@[simp] lemma NHBOR_setLabel (s : HMState) (i v : Int) (z : Int) : NHBOR (setLabel s i v) z = NHBOR s z := rfl
@[simp] lemma NHBOR_stack_push (s : HMState) (p : Int) (z : Int) : NHBOR (stack_push s p) z = NHBOR s z := rfl
@[simp] lemma NHBOR_add_arc (s : HMState) (p r : Int) (z : Int) : NHBOR (add_arc s p r) z = NHBOR s z := rfl

@[simp] lemma COUNT_setMate (s : HMState) (i v : Int) (z : Int) : COUNT (setMate s i v) z = COUNT s z := rfl
@[simp] lemma COUNT_setAlpha (s : HMState) (i v : Int) (z : Int) : COUNT (setAlpha s i v) z = COUNT s z := rfl
@[simp] lemma COUNT_setBeta (s : HMState) (j v : Int) (z : Int) : COUNT (setBeta s j v) z = COUNT s z := rfl
@[simp] lemma COUNT_setSlack (s : HMState) (j v : Int) (z : Int) : COUNT (setSlack s j v) z = COUNT s z := rfl
@[simp] lemma COUNT_setNhbor (s : HMState) (j v : Int) (z : Int) : COUNT (setNhbor s j v) z = COUNT s z := rfl
@[simp] lemma COUNT_setCount (s : HMState) (i v : Int) (z : Int) : COUNT (setCount s i v) z = if z = i then v else COUNT s z := by
  simp [COUNT, setCount, Function.update_apply]
@[simp] lemma COUNT_setExposed (s : HMState) (i v : Int) (z : Int) : COUNT (setExposed s i v) z = COUNT s z := rfl
@[simp] lemma COUNT_setLabel (s : HMState) (i v : Int) (z : Int) : COUNT (setLabel s i v) z = COUNT s z := rfl
@[simp] lemma COUNT_stack_push (s : HMState) (p : Int) (z : Int) : COUNT (stack_push s p) z = COUNT s z := rfl
@[simp] lemma COUNT_add_arc (s : HMState) (p r : Int) (z : Int) : COUNT (add_arc s p r) z = COUNT s z := rfl

@[simp] lemma EXPOSED_setMate (s : HMState) (i v : Int) (z : Int) : EXPOSED (setMate s i v) z = EXPOSED s z := rfl
@[simp] lemma EXPOSED_setAlpha (s : HMState) (i v : Int) (z : Int) : EXPOSED (setAlpha s i v) z = EXPOSED s z := rfl
@[simp] lemma EXPOSED_setBeta (s : HMState) (j v : Int) (z : Int) : EXPOSED (setBeta s j v) z = EXPOSED s z := rfl
@[simp] lemma EXPOSED_setSlack (s : HMState) (j v : Int) (z : Int) : EXPOSED (setSlack s j v) z = EXPOSED s z := rfl
@[simp] lemma EXPOSED_setNhbor (s : HMState) (j v : Int) (z : Int) : EXPOSED (setNhbor s j v) z = EXPOSED s z := rfl
@[simp] lemma EXPOSED_setCount (s : HMState) (i v : Int) (z : Int) : EXPOSED (setCount s i v) z = EXPOSED s z := rfl
@[simp] lemma EXPOSED_setExposed (s : HMState) (i v : Int) (z : Int) : EXPOSED (setExposed s i v) z = if z = i then v else EXPOSED s z := by
  simp [EXPOSED, setExposed, Function.update_apply]
@[simp] lemma EXPOSED_setLabel (s : HMState) (i v : Int) (z : Int) : EXPOSED (setLabel s i v) z = EXPOSED s z := rfl
@[simp] lemma EXPOSED_stack_push (s : HMState) (p : Int) (z : Int) : EXPOSED (stack_push s p) z = EXPOSED s z := rfl
@[simp] lemma EXPOSED_add_arc (s : HMState) (p r : Int) (z : Int) : EXPOSED (add_arc s p r) z = EXPOSED s z := rfl

@[simp] lemma LABEL_setMate (s : HMState) (i v : Int) (z : Int) : LABEL (setMate s i v) z = LABEL s z := rfl
@[simp] lemma LABEL_setAlpha (s : HMState) (i v : Int) (z : Int) : LABEL (setAlpha s i v) z = LABEL s z := rfl
@[simp] lemma LABEL_setBeta (s : HMState) (j v : Int) (z : Int) : LABEL (setBeta s j v) z = LABEL s z := rfl
@[simp] lemma LABEL_setSlack (s : HMState) (j v : Int) (z : Int) : LABEL (setSlack s j v) z = LABEL s z := rfl
@[simp] lemma LABEL_setNhbor (s : HMState) (j v : Int) (z : Int) : LABEL (setNhbor s j v) z = LABEL s z := rfl
@[simp] lemma LABEL_setCount (s : HMState) (i v : Int) (z : Int) : LABEL (setCount s i v) z = LABEL s z := rfl
@[simp] lemma LABEL_setExposed (s : HMState) (i v : Int) (z : Int) : LABEL (setExposed s i v) z = LABEL s z := rfl
@[simp] lemma LABEL_setLabel (s : HMState) (i v : Int) (z : Int) : LABEL (setLabel s i v) z = if z = i then v else LABEL s z := by
  simp [LABEL, setLabel, Function.update_apply]
@[simp] lemma LABEL_stack_push (s : HMState) (p : Int) (z : Int) : LABEL (stack_push s p) z = LABEL s z := rfl
@[simp] lemma LABEL_add_arc (s : HMState) (p r : Int) (z : Int) : LABEL (add_arc s p r) z = LABEL s z := rfl

@[simp] lemma Cmat_setMate (s : HMState) (i v : Int) (y z : Int) : Cmat (setMate s i v) y z = Cmat s y z := rfl
@[simp] lemma Cmat_setAlpha (s : HMState) (i v : Int) (y z : Int) : Cmat (setAlpha s i v) y z = Cmat s y z := rfl
@[simp] lemma Cmat_setBeta (s : HMState) (j v : Int) (y z : Int) : Cmat (setBeta s j v) y z = Cmat s y z := rfl
@[simp] lemma Cmat_setSlack (s : HMState) (j v : Int) (y z : Int) : Cmat (setSlack s j v) y z = Cmat s y z := rfl
@[simp] lemma Cmat_setNhbor (s : HMState) (j v : Int) (y z : Int) : Cmat (setNhbor s j v) y z = Cmat s y z := rfl
@[simp] lemma Cmat_setCount (s : HMState) (i v : Int) (y z : Int) : Cmat (setCount s i v) y z = Cmat s y z := rfl
@[simp] lemma Cmat_setExposed (s : HMState) (i v : Int) (y z : Int) : Cmat (setExposed s i v) y z = Cmat s y z := rfl
@[simp] lemma Cmat_setLabel (s : HMState) (i v : Int) (y z : Int) : Cmat (setLabel s i v) y z = Cmat s y z := rfl
@[simp] lemma Cmat_stack_push (s : HMState) (p : Int) (y z : Int) : Cmat (stack_push s p) y z = Cmat s y z := rfl
@[simp] lemma Cmat_add_arc (s : HMState) (p r : Int) (y z : Int) : Cmat (add_arc s p r) y z = Cmat s y z := rfl

/-- The iterative while loop of `hm_augment`, with fuel for the unbounded
`while ( LABEL( v ) != blank )`. -/
def hm_augment_go : Nat → HMState → Int → HMState
  | 0, s, _ => s
  | f + 1, s, v =>
    if LABEL s v ≠ blank then
      let s1 := setExposed s (LABEL s v) (MATE s v)
      let s2 := setMate s1 v (EXPOSED s1 v)
      let s3 := setMate s2 (EXPOSED s2 v) v
      hm_augment_go f s3 (LABEL s3 v)
    else
      let s1 := setMate s v (EXPOSED s v)
      setMate s1 (EXPOSED s1 v) v

/-- `hm_augment( hm, v )`: iterative augmentation along the label chain.
The label chains arising in actual runs have length at most `n`, so fuel
`n.toNat + 1` is the exact bound used. -/
def hm_augment (s : HMState) (v : Int) : HMState := hm_augment_go (s.n.toNat + 1) s v

/-- `hm_initialize( hm )`: `mate ≡ blank`, `alpha ≡ 0`,
`beta[u] = min_v C(v,u)` (computed with an `INT_MAX` sentinel). -/
def hm_initialize (s : HMState) : HMState :=
  (eachU s.n).foldl
    (fun t j =>
      (eachV s.n).foldl
        (fun u i => if Cmat u i j < BETA u j then setBeta u j (Cmat u i j) else u)
        (setBeta (setMate t j blank) j INT_MAX))
    ((eachV s.n).foldl (fun t i => setAlpha (setMate t i blank) i 0) s)

/-- `hm_construct_auxiliary_graph( hm )`. -/
def hm_construct_auxiliary_graph (s : HMState) : HMState :=
  (eachV s.n).foldl
    (fun t i =>
      (eachU s.n).foldl
        (fun u j =>
          if ALPHA u i + BETA u j = Cmat u i j then
            if MATE u j = blank then setExposed u i j
            else if i ≠ MATE u j then add_arc u i (MATE u j) else u
          else u)
        t)
    ((eachU s.n).foldl (fun t j => setNhbor (setSlack t j INT_MAX) j blank)
      ((eachV s.n).foldl
        (fun t i => setCount (setLabel (setExposed t i blank) i blank) i 0)
        { s with a := [] }))

/-- `hm_update_slack( hm, z )`. -/
def hm_update_slack (s : HMState) (z : Int) : HMState :=
  (eachU s.n).foldl
    (fun t k =>
      let tmp := Cmat t z k - ALPHA t z - BETA t k
      if 0 ≤ tmp ∧ tmp < SLACK t k then
        let t1 := setSlack t k tmp
        let t2 :=
          if NHBOR t1 k ≠ blank then
            setCount t1 (NHBOR t1 k) (COUNT t1 (NHBOR t1 k) - 1)
          else t1
        let t3 := setCount t2 z (COUNT t2 z + 1)
        setNhbor t3 k z
      else t)
    s

/-- The body of `hm_pre_search` over the remaining V-vertices; the `Bool`
result is `false` on the `goto endstage` path (an augmentation happened). -/
def pre_search_go : HMState → List Int → HMState × Bool
  | s, [] => (s, true)
  | s, i :: rest =>
    if MATE s i = blank then
      if EXPOSED s i ≠ blank then (hm_augment s i, false)
      else
        pre_search_go (hm_update_slack (setLabel (stack_push s i) i blank) i) rest
    else pre_search_go s rest

/-- `hm_pre_search( hm )` (starts with `Q.size = 0`). -/
def hm_pre_search (s : HMState) : HMState × Bool :=
  pre_search_go { s with q := [] } (eachV s.n)

/-- The inner `for ( z = 0; z < A.size; ++z )` loop of `hm_search` for the
popped vertex `i`, over the (fixed) arc list. -/
def search_arcs : HMState → Int → List (Int × Int) → HMState × Bool
  | s, _, [] => (s, true)
  | s, i, ar :: rest =>
    if ar.1 = i then
      if LABEL s ar.2 = blank then
        if EXPOSED (setLabel s ar.2 i) ar.2 ≠ blank then
          (hm_augment (setLabel s ar.2 i) ar.2, false)
        else
          search_arcs (hm_update_slack (stack_push (setLabel s ar.2 i) ar.2) ar.2) i rest
      else search_arcs s i rest
    else search_arcs s i rest

/-- The `while ( Q.size != 0 )` loop of `hm_search`, with fuel. -/
def search_go : Nat → HMState → HMState × Bool
  | 0, s => (s, true)
  | f + 1, s =>
    match s.q with
    | [] => (s, true)
    | i :: rest =>
      match search_arcs { s with q := rest } i s.a with
      | (s1, false) => (s1, false)
      | (s1, true) => search_go f s1

/-- `hm_search( hm )`. -/
def hm_search (fuel : Nat) (s : HMState) : HMState × Bool := search_go fuel s

/-- The `theta_one` computation at the top of `hm_modify` (before `/= 2`). -/
def theta_one_of (s : HMState) : Int :=
  (eachU s.n).foldl
    (fun th j => if 0 < SLACK s j ∧ SLACK s j < th then SLACK s j else th) INT_MAX

/-- The alpha-update loop of `hm_modify`, including the `count[]` correction:
`alpha[v] += θ` iff `LABEL(v) != blank || COUNT(v) > 0`, else `-= θ`. -/
def alpha_update (s : HMState) (th : Int) : HMState :=
  (eachV s.n).foldl
    (fun t i =>
      if LABEL t i ≠ blank ∨ 0 < COUNT t i then setAlpha t i (ALPHA t i + th)
      else setAlpha t i (ALPHA t i - th))
    s

/-- The beta-update loop of `hm_modify`: `beta[u] -= θ` iff `SLACK(u) == 0`,
else `+= θ`. -/
def beta_update (s : HMState) (th : Int) : HMState :=
  (eachU s.n).foldl
    (fun t j =>
      if SLACK t j = 0 then setBeta t j (BETA t j - th) else setBeta t j (BETA t j + th))
    s

/-- The final loop of `hm_modify`: decrement positive slacks by `2θ` and
check for new admissible edges (push `NHBOR(j)` / `add_arc` when `MATE(j)`
is matched, augment immediately when it is exposed). -/
def modify_scan : HMState → Int → List Int → HMState × Bool
  | s, _, [] => (s, true)
  | s, th, j :: rest =>
    if 0 < SLACK s j then
      if SLACK (setSlack s j (SLACK s j - 2 * th)) j = 0 then
        if MATE (setSlack s j (SLACK s j - 2 * th)) j = blank then
          (hm_augment
            (setExposed (setSlack s j (SLACK s j - 2 * th))
              (NHBOR (setSlack s j (SLACK s j - 2 * th)) j) j)
            (NHBOR (setExposed (setSlack s j (SLACK s j - 2 * th))
              (NHBOR (setSlack s j (SLACK s j - 2 * th)) j) j) j), false)
        else
          modify_scan
            (add_arc
              (stack_push (setSlack s j (SLACK s j - 2 * th))
                (NHBOR (setSlack s j (SLACK s j - 2 * th)) j))
              (NHBOR (setSlack s j (SLACK s j - 2 * th)) j)
              (MATE (setSlack s j (SLACK s j - 2 * th)) j)) th rest
      else modify_scan (setSlack s j (SLACK s j - 2 * th)) th rest
    else modify_scan s th rest

/-- `hm_modify( hm )`. -/
def hm_modify (s : HMState) : HMState × Bool :=
  modify_scan
    (beta_update (alpha_update s (idiv (theta_one_of s) 2)) (idiv (theta_one_of s) 2))
    (idiv (theta_one_of s) 2) (eachU s.n)

/-- The `while ( hm_search( &hm ) && hm_modify( &hm ) )` loop of a stage
(`sfuel` is the fuel handed to each `hm_search` call). -/
def stage_loop (sfuel : Nat) : Nat → HMState → HMState
  | 0, s => s
  | f + 1, s =>
    match hm_search sfuel s with
    | (s1, false) => s1
    | (s1, true) =>
      match hm_modify s1 with
      | (s2, false) => s2
      | (s2, true) => stage_loop sfuel f s2

/-- One iteration of the outer `for ( s = 1; s <= n; ++s )` loop of
`hungarian_method`. -/
def hm_stage (sfuel lfuel : Nat) (s : HMState) : HMState :=
  match hm_pre_search (hm_construct_auxiliary_graph s) with
  | (s2, false) => s2
  | (s2, true) => stage_loop sfuel lfuel s2

/-- The outer stage loop, running `k` stages. -/
def run_stages (sfuel lfuel : Nat) : Nat → HMState → HMState
  | 0, s => s
  | k + 1, s => run_stages sfuel lfuel k (hm_stage sfuel lfuel s)

/-- The doubly nested cost-scaling loops of `hungarian_method`
(`c[ i * n + j ] *= 2` at entry resp. `/= 2` at exit, with `f` the per-entry
transformation). -/
def scale_costs (f : Int → Int) (n : Int) (c : Int → Int) : Int → Int :=
  (eachV n).foldl
    (fun g i =>
      (eachV n).foldl (fun g' j => Function.update g' (i * n + j) (f (g' (i * n + j)))) g)
    c

/-- Fuel handed to each `hm_search` call: ample for the at most `3n + 1`
pushes that a stage can perform. -/
def search_fuel (n : Int) : Nat := (n.toNat + 2) * (n.toNat + 2)

/-- Fuel for the search/modify rounds of one stage: ample for the at most
`n + 1` rounds a stage can take. -/
def loop_fuel (n : Int) : Nat := (n.toNat + 2) * (n.toNat + 2)

/-- `hungarian_method( mate, c, n )`.

`allocOk` is the success of `hm_data_internal_allocate`.  The result is
`(returned pointer, final mate buffer, final cost buffer)`: the first
component is `none` when the C function returns `NULL` (allocation failure,
before any write to `mate` or `c`), and `some m` when it returns its `mate`
argument, whose final contents are `m`.

The entry doubling `c[ i * n + j ] *= 2` is idealized here as exact integer
multiplication; it agrees with the 32-bit `int` of the C code only while
every entry lies in `[0, INT_MAX / 2]`.  `hungarian_method_wrapped` below
models the doubling at machine precision (wrap-around on overflow). -/
def hungarian_method (allocOk : Bool) (mate c : Int → Int) (n : Int) :
    Option (Int → Int) × (Int → Int) × (Int → Int) :=
  if allocOk = false then (none, mate, c)
  else
    (some (run_stages (search_fuel n) (loop_fuel n) n.toNat
        { hm_initialize
            { mate := mate, c := scale_costs (fun x => x * 2) n c, n := n, q := [], a := [],
              alpha := fun _ => 0, beta := fun _ => 0, slack := fun _ => 0,
              nhbor := fun _ => 0, count := fun _ => 0, exposed := fun _ => 0,
              label := fun _ => 0 } with
          q := [], a := [] }).mate,
      (run_stages (search_fuel n) (loop_fuel n) n.toNat
        { hm_initialize
            { mate := mate, c := scale_costs (fun x => x * 2) n c, n := n, q := [], a := [],
              alpha := fun _ => 0, beta := fun _ => 0, slack := fun _ => 0,
              nhbor := fun _ => 0, count := fun _ => 0, exposed := fun _ => 0,
              label := fun _ => 0 } with
          q := [], a := [] }).mate,
      scale_costs (fun x => idiv x 2) n
        (run_stages (search_fuel n) (loop_fuel n) n.toNat
          { hm_initialize
              { mate := mate, c := scale_costs (fun x => x * 2) n c, n := n, q := [], a := [],
                alpha := fun _ => 0, beta := fun _ => 0, slack := fun _ => 0,
                nhbor := fun _ => 0, count := fun _ => 0, exposed := fun _ => 0,
                label := fun _ => 0 } with
            q := [], a := [] }).c)

/-- Total cost of the matching in `mate` w.r.t. the flat cost buffer `c`
(the `compute_cost` check of `hm_test.cc`: `sum of c[ i*n + mate[i] - n ]`). -/
def total_cost (mate c : Int → Int) (n : Int) : Int :=
  (eachV n).foldl (fun acc i => acc + c (i * n + (mate i - n))) 0

/-! ### Basic facts about the index lists -/

lemma mem_eachV {n x : Int} : x ∈ eachV n ↔ 0 ≤ x ∧ x < n := by
  unfold eachV
  rw [List.mem_map]
  constructor
  · rintro ⟨k, hk, rfl⟩
    rw [List.mem_range] at hk
    omega
  · intro hx
    refine ⟨x.toNat, ?_, ?_⟩
    · rw [List.mem_range]; omega
    · omega

lemma mem_eachU {n x : Int} : x ∈ eachU n ↔ n ≤ x ∧ x < 2 * n := by
  unfold eachU
  rw [List.mem_map]
  constructor
  · rintro ⟨k, hk, rfl⟩
    rw [List.mem_range] at hk
    omega
  · intro hx
    refine ⟨(x - n).toNat, ?_, ?_⟩
    · rw [List.mem_range]; omega
    · omega

lemma nodup_eachV (n : Int) : (eachV n).Nodup := by
  unfold eachV
  exact List.Nodup.map (fun a b hab => by omega) (List.nodup_range _)

lemma nodup_eachU (n : Int) : (eachU n).Nodup := by
  unfold eachU
  exact List.Nodup.map (fun a b hab => by omega) (List.nodup_range _)

/-! ### Generic fold helpers -/

lemma foldl_hmstate_pres {α : Type} (P : HMState → Prop) (step : HMState → α → HMState)
    (l : List α) :
    ∀ s : HMState, P s → (∀ t a, a ∈ l → P t → P (step t a)) → P (l.foldl step s) := by
  induction l with
  | nil => intro s hs _; exact hs
  | cons a l ih =>
    intro s hs hstep
    exact ih (step s a) (hstep s a (by simp) hs)
      (fun t b hb ht => hstep t b (by simp [hb]) ht)

lemma foldl_flatMap {α β γ : Type} (g : γ → β → γ) (h : α → List β) (l : List α) :
    ∀ init : γ, (l.flatMap h).foldl g init = l.foldl (fun acc a => (h a).foldl g acc) init := by
  induction l with
  | nil => intro init; rfl
  | cons a l ih =>
    intro init
    simp only [List.flatMap_cons, List.foldl_append, List.foldl_cons, ih]

/-! ### The cost-scaling loops -/

/-- One-dimensional version of the cost-scaling loop, over an explicit list of
flat indices. -/
def applyAll (f : Int → Int) (L : List Int) (c : Int → Int) : Int → Int :=
  L.foldl (fun g idx => Function.update g idx (f (g idx))) c

/-- The flat indices `i * n + j` visited by the doubly nested scaling loops,
in visit order. -/
def cost_indices (n : Int) : List Int :=
  (eachV n).flatMap (fun i => (eachV n).map (fun j => i * n + j))

lemma scale_costs_eq_applyAll (f : Int → Int) (n : Int) (c : Int → Int) :
    scale_costs f n c = applyAll f (cost_indices n) c := by
  simp only [scale_costs, applyAll, cost_indices, foldl_flatMap, List.foldl_map]

lemma row_col_inj {n i1 j1 i2 j2 : Int} (h1 : 0 ≤ j1) (h2 : j1 < n) (h3 : 0 ≤ j2)
    (h4 : j2 < n) (he : i1 * n + j1 = i2 * n + j2) : i1 = i2 ∧ j1 = j2 := by
  rcases lt_trichotomy i1 i2 with hlt | heq | hgt
  · exfalso
    have hmul : (i1 + 1) * n ≤ i2 * n :=
      mul_le_mul_of_nonneg_right (by omega) (by omega)
    nlinarith
  · subst heq
    exact ⟨rfl, by omega⟩
  · exfalso
    have hmul : (i2 + 1) * n ≤ i1 * n :=
      mul_le_mul_of_nonneg_right (by omega) (by omega)
    nlinarith

lemma cost_indices_nodup (n : Int) : (cost_indices n).Nodup := by
  rw [cost_indices, List.nodup_flatMap]
  constructor
  · intro i _
    exact (nodup_eachV n).map (fun a b hab => by omega)
  · refine (nodup_eachV n).imp ?_
    intro i1 i2 hne x hx1 hx2
    simp only [List.mem_map, mem_eachV] at hx1 hx2
    obtain ⟨j1, hj1, rfl⟩ := hx1
    obtain ⟨j2, hj2, he⟩ := hx2
    exact hne ((row_col_inj hj2.1 hj2.2 hj1.1 hj1.2 he).1).symm

lemma applyAll_apply (f : Int → Int) (L : List Int) (hL : L.Nodup) :
    ∀ (c : Int → Int) (x : Int), applyAll f L c x = if x ∈ L then f (c x) else c x := by
  induction L with
  | nil => intro c x; simp [applyAll]
  | cons a L ih =>
    intro c x
    have hnd := List.nodup_cons.mp hL
    simp only [applyAll, List.foldl_cons]
    rw [show (L.foldl (fun g idx => Function.update g idx (f (g idx)))
        (Function.update c a (f (c a)))) = applyAll f L (Function.update c a (f (c a))) from rfl,
      ih hnd.2]
    by_cases hx : x = a
    · subst hx
      simp [hnd.1, Function.update_apply]
    · simp [Function.update_apply, hx, List.mem_cons]

lemma scale_costs_apply (f : Int → Int) (n : Int) (c : Int → Int) (x : Int) :
    scale_costs f n c x = if x ∈ cost_indices n then f (c x) else c x := by
  rw [scale_costs_eq_applyAll, applyAll_apply f _ (cost_indices_nodup n)]

/-! ### Claim C10: machine-arithmetic analysis of the doubling/halving -/

/-- Wrap-around (two's complement) result of a signed 32-bit `int`
computation. -/
def wrap32 (x : Int) : Int := (x + 2147483648) % 4294967296 - 2147483648

/-- One cost entry's journey through `hungarian_method` on 32-bit machine
integers: the entry is doubled at entry (`c[ i * n + j ] *= 2`, with signed
overflow modelled as wrap-around) and halved at exit (`c[ i * n + j ] /= 2`,
C truncating division). -/
def double_then_halve_wrapped (x : Int) : Int := idiv (wrap32 (x * 2)) 2

/-- Claim C10: the cost-restoration round-trip is exact precisely under the
precondition `0 ≤ c ≤ INT_MAX / 2`: every such entry survives
`(c * 2) / 2` on wrap-around machine integers unchanged, while every entry
above `INT_MAX / 2` (up to `INT_MAX`) overflows during the doubling and is
not restored. -/
theorem cost_scaling_overflow_spec :
    (∀ x : Int, 0 ≤ x → x ≤ idiv INT_MAX 2 → double_then_halve_wrapped x = x) ∧
    (∀ x : Int, idiv INT_MAX 2 < x → x ≤ INT_MAX → double_then_halve_wrapped x ≠ x) := by
  have hmax : idiv INT_MAX 2 = 1073741823 := by decide
  constructor
  · intro x h0 hle
    rw [hmax] at hle
    have hw : wrap32 (x * 2) = x * 2 := by
      unfold wrap32
      omega
    unfold double_then_halve_wrapped
    rw [hw]
    exact Int.mul_tdiv_cancel x (by decide)
  · intro x hlt hle
    rw [hmax] at hlt
    unfold INT_MAX at hle
    have hw : wrap32 (x * 2) = (x - 2147483648) * 2 := by
      unfold wrap32
      omega
    unfold double_then_halve_wrapped
    rw [hw, idiv, Int.mul_tdiv_cancel _ (by decide)]
    omega

/-- Witness for C10 at the concrete entries `5` (in range, restored) and
`1073741824 = 2^30` (out of range, corrupted). -/
theorem cost_scaling_overflow_spec_witness :
    ((0 : Int) ≤ 5 ∧ (5 : Int) ≤ idiv INT_MAX 2 ∧ double_then_halve_wrapped 5 = 5) ∧
    (idiv INT_MAX 2 < (1073741824 : Int) ∧ (1073741824 : Int) ≤ INT_MAX ∧
      double_then_halve_wrapped 1073741824 ≠ 1073741824) :=
  ⟨⟨by decide, by decide, cost_scaling_overflow_spec.1 5 (by decide) (by decide)⟩,
    ⟨by decide, by decide, cost_scaling_overflow_spec.2 1073741824 (by decide) (by decide)⟩⟩

/-! ### Claim C9: allocation failure is atomic -/

/-- Claim C9: `hungarian_method` returns `NULL` (`none`) exactly when the
allocation of the internal working arrays fails; in that case it returns
before writing to the `mate` buffer or the cost matrix, which are left
exactly as supplied; on success the returned pointer is the `mate` buffer
itself (its final contents). -/
theorem alloc_failure_spec (allocOk : Bool) (mate c : Int → Int) (n : Int) :
    ((hungarian_method allocOk mate c n).1 = none ↔ allocOk = false) ∧
    (allocOk = false →
      (hungarian_method allocOk mate c n).2.1 = mate ∧
      (hungarian_method allocOk mate c n).2.2 = c) ∧
    (allocOk = true →
      (hungarian_method allocOk mate c n).1 =
        some ((hungarian_method allocOk mate c n).2.1)) := by
  cases allocOk <;> simp [hungarian_method]

/-- Witness for C9: a concrete failing allocation (buffers untouched) and a
concrete succeeding one (returns its own mate buffer). -/
theorem alloc_failure_spec_witness :
    ((hungarian_method false (fun _ => 3) (fun _ => 4) 2).1 = none ∧
      (hungarian_method false (fun _ => 3) (fun _ => 4) 2).2.1 = (fun _ => (3 : Int)) ∧
      (hungarian_method false (fun _ => 3) (fun _ => 4) 2).2.2 = (fun _ => (4 : Int))) ∧
    (hungarian_method true (fun _ => 3) (fun _ => 4) 2).1 =
      some ((hungarian_method true (fun _ => 3) (fun _ => 4) 2).2.1) :=
  ⟨⟨((alloc_failure_spec false (fun _ => 3) (fun _ => 4) 2).1).mpr rfl,
    ((alloc_failure_spec false (fun _ => 3) (fun _ => 4) 2).2.1 rfl).1,
    ((alloc_failure_spec false (fun _ => 3) (fun _ => 4) 2).2.1 rfl).2⟩,
    (alloc_failure_spec true (fun _ => 3) (fun _ => 4) 2).2.2 rfl⟩

/-! ### Frame lemmas: which state fields each phase can touch -/

lemma hm_augment_go_frame (f : Nat) :
    ∀ (s : HMState) (v : Int),
      ∃ m e, hm_augment_go f s v = { s with mate := m, exposed := e } := by
  induction f with
  | zero => intro s v; exact ⟨s.mate, s.exposed, rfl⟩
  | succ f ih =>
    intro s v
    rw [hm_augment_go]
    split
    · obtain ⟨m, e, he⟩ := ih
        (setMate (setMate (setExposed s (LABEL s v) (MATE s v)) v
          (EXPOSED (setExposed s (LABEL s v) (MATE s v)) v))
          (EXPOSED (setMate (setExposed s (LABEL s v) (MATE s v)) v
            (EXPOSED (setExposed s (LABEL s v) (MATE s v)) v)) v) v)
        (LABEL (setMate (setMate (setExposed s (LABEL s v) (MATE s v)) v
          (EXPOSED (setExposed s (LABEL s v) (MATE s v)) v))
          (EXPOSED (setMate (setExposed s (LABEL s v) (MATE s v)) v
            (EXPOSED (setExposed s (LABEL s v) (MATE s v)) v)) v) v) v)
      exact ⟨m, e, he⟩
    · exact ⟨_, _, rfl⟩

lemma hm_augment_frame (s : HMState) (v : Int) :
    ∃ m e, hm_augment s v = { s with mate := m, exposed := e } :=
  hm_augment_go_frame _ s v

lemma hm_update_slack_frame (s : HMState) (z : Int) :
    ∃ sl nh cnt, hm_update_slack s z = { s with slack := sl, nhbor := nh, count := cnt } := by
  unfold hm_update_slack
  refine foldl_hmstate_pres
    (fun t => ∃ sl nh cnt, t = { s with slack := sl, nhbor := nh, count := cnt }) _ _ s
    ⟨s.slack, s.nhbor, s.count, rfl⟩ ?_
  intro t k _ ht
  obtain ⟨sl, nh, cnt, rfl⟩ := ht
  dsimp only
  split
  · split <;> exact ⟨_, _, _, rfl⟩
  · exact ⟨sl, nh, cnt, rfl⟩

lemma hm_initialize_frame (s : HMState) :
    ∃ m al be, hm_initialize s = { s with mate := m, alpha := al, beta := be } := by
  unfold hm_initialize
  refine foldl_hmstate_pres
    (fun t => ∃ m al be, t = { s with mate := m, alpha := al, beta := be }) _ _ _ ?_ ?_
  · refine foldl_hmstate_pres
      (fun t => ∃ m al be, t = { s with mate := m, alpha := al, beta := be }) _ _ s
      ⟨s.mate, s.alpha, s.beta, rfl⟩ ?_
    intro t i _ ht
    obtain ⟨m, al, be, rfl⟩ := ht
    exact ⟨_, _, _, rfl⟩
  · intro t j _ ht
    obtain ⟨m, al, be, rfl⟩ := ht
    refine foldl_hmstate_pres
      (fun t => ∃ m al be, t = { s with mate := m, alpha := al, beta := be }) _ _ _
      ⟨_, _, _, rfl⟩ ?_
    intro u i _ hu
    obtain ⟨m2, al2, be2, rfl⟩ := hu
    split
    · exact ⟨_, _, _, rfl⟩
    · exact ⟨_, _, _, rfl⟩

lemma hm_construct_frame (s : HMState) :
    ∃ ar e l cnt sl nh,
      hm_construct_auxiliary_graph s =
        { s with a := ar, exposed := e, label := l, count := cnt, slack := sl, nhbor := nh } := by
  unfold hm_construct_auxiliary_graph
  refine foldl_hmstate_pres
    (fun t => ∃ ar e l cnt sl nh,
      t = { s with a := ar, exposed := e, label := l, count := cnt, slack := sl, nhbor := nh })
    _ _ _ ?_ ?_
  · refine foldl_hmstate_pres
      (fun t => ∃ ar e l cnt sl nh,
        t = { s with a := ar, exposed := e, label := l, count := cnt, slack := sl, nhbor := nh })
      _ _ _ ?_ ?_
    · refine foldl_hmstate_pres
        (fun t => ∃ ar e l cnt sl nh,
          t = { s with a := ar, exposed := e, label := l, count := cnt, slack := sl, nhbor := nh })
        _ _ _ ⟨[], s.exposed, s.label, s.count, s.slack, s.nhbor, rfl⟩ ?_
      intro t i _ ht
      obtain ⟨ar, e, l, cnt, sl, nh, rfl⟩ := ht
      exact ⟨_, _, _, _, _, _, rfl⟩
    · intro t j _ ht
      obtain ⟨ar, e, l, cnt, sl, nh, rfl⟩ := ht
      exact ⟨_, _, _, _, _, _, rfl⟩
  · intro t i _ ht
    refine foldl_hmstate_pres
      (fun t => ∃ ar e l cnt sl nh,
        t = { s with a := ar, exposed := e, label := l, count := cnt, slack := sl, nhbor := nh })
      _ _ _ ht ?_
    intro u j _ hu
    obtain ⟨ar, e, l, cnt, sl, nh, rfl⟩ := hu
    split
    · split
      · exact ⟨_, _, _, _, _, _, rfl⟩
      · split
        · exact ⟨_, _, _, _, _, _, rfl⟩
        · exact ⟨_, _, _, _, _, _, rfl⟩
    · exact ⟨_, _, _, _, _, _, rfl⟩

lemma pre_search_go_frame :
    ∀ (l : List Int) (s : HMState),
      ∃ m e lb qq sl nh cnt,
        (pre_search_go s l).1 =
          { s with mate := m, exposed := e, label := lb, q := qq,
                   slack := sl, nhbor := nh, count := cnt } := by
  intro l
  induction l with
  | nil => intro s; exact ⟨s.mate, s.exposed, s.label, s.q, s.slack, s.nhbor, s.count, rfl⟩
  | cons i rest ih =>
    intro s
    rw [pre_search_go]
    split
    · split
      · obtain ⟨m, e, he⟩ := hm_augment_frame s i
        exact ⟨m, e, _, _, _, _, _, by rw [he]⟩
      · obtain ⟨sl, nh, cnt, hu⟩ :=
          hm_update_slack_frame (setLabel (stack_push s i) i blank) i
        obtain ⟨m, e, lb, qq, sl2, nh2, cnt2, hr⟩ :=
          ih (hm_update_slack (setLabel (stack_push s i) i blank) i)
        refine ⟨m, e, lb, qq, sl2, nh2, cnt2, ?_⟩
        rw [hr, hu]
        rfl
    · exact ih s

lemma hm_pre_search_frame (s : HMState) :
    ∃ m e lb qq sl nh cnt,
      (hm_pre_search s).1 =
        { s with mate := m, exposed := e, label := lb, q := qq,
                 slack := sl, nhbor := nh, count := cnt } := by
  unfold hm_pre_search
  obtain ⟨m, e, lb, qq, sl, nh, cnt, hr⟩ := pre_search_go_frame (eachV s.n) { s with q := [] }
  exact ⟨m, e, lb, qq, sl, nh, cnt, by rw [hr]⟩

lemma search_arcs_frame :
    ∀ (arcs : List (Int × Int)) (s : HMState) (i : Int),
      ∃ m e lb qq sl nh cnt,
        (search_arcs s i arcs).1 =
          { s with mate := m, exposed := e, label := lb, q := qq,
                   slack := sl, nhbor := nh, count := cnt } := by
  intro arcs
  induction arcs with
  | nil => intro s i; exact ⟨s.mate, s.exposed, s.label, s.q, s.slack, s.nhbor, s.count, rfl⟩
  | cons ar rest ih =>
    intro s i
    rw [search_arcs]
    split
    · split
      · split
        · obtain ⟨m, e, he⟩ := hm_augment_frame (setLabel s ar.2 i) ar.2
          exact ⟨m, e, Function.update s.label ar.2 i, s.q, s.slack, s.nhbor, s.count,
            by rw [he]; rfl⟩
        · obtain ⟨sl, nh, cnt, hu⟩ :=
            hm_update_slack_frame (stack_push (setLabel s ar.2 i) ar.2) ar.2
          obtain ⟨m, e, lb, qq, sl2, nh2, cnt2, hr⟩ :=
            ih (hm_update_slack (stack_push (setLabel s ar.2 i) ar.2) ar.2) i
          refine ⟨m, e, lb, qq, sl2, nh2, cnt2, ?_⟩
          rw [hr, hu]
          rfl
      · exact ih s i
    · exact ih s i

lemma search_go_frame (f : Nat) :
    ∀ s : HMState,
      ∃ m e lb qq sl nh cnt,
        (search_go f s).1 =
          { s with mate := m, exposed := e, label := lb, q := qq,
                   slack := sl, nhbor := nh, count := cnt } := by
  induction f with
  | zero => intro s; exact ⟨s.mate, s.exposed, s.label, s.q, s.slack, s.nhbor, s.count, rfl⟩
  | succ f ih =>
    intro s
    rw [search_go]
    rcases hq : s.q with _ | ⟨i, rest⟩
    · exact ⟨s.mate, s.exposed, s.label, s.q, s.slack, s.nhbor, s.count, rfl⟩
    · rcases har : search_arcs { s with q := rest } i s.a with ⟨s1, b1⟩
      obtain ⟨m, e, lb, qq, sl, nh, cnt, hr⟩ := search_arcs_frame s.a { s with q := rest } i
      rw [har] at hr
      dsimp only at hr
      dsimp only
      rw [har]
      cases b1
      · exact ⟨m, e, lb, qq, sl, nh, cnt, hr⟩
      · obtain ⟨m2, e2, lb2, qq2, sl2, nh2, cnt2, hr2⟩ := ih s1
        refine ⟨m2, e2, lb2, qq2, sl2, nh2, cnt2, ?_⟩
        show (search_go f s1).1 = _
        rw [hr2, hr]

lemma hm_search_frame (f : Nat) (s : HMState) :
    ∃ m e lb qq sl nh cnt,
      (hm_search f s).1 =
        { s with mate := m, exposed := e, label := lb, q := qq,
                 slack := sl, nhbor := nh, count := cnt } :=
  search_go_frame f s

lemma alpha_update_frame (s : HMState) (th : Int) :
    ∃ al, alpha_update s th = { s with alpha := al } := by
  unfold alpha_update
  refine foldl_hmstate_pres (fun t => ∃ al, t = { s with alpha := al }) _ _ s ⟨s.alpha, rfl⟩ ?_
  intro t i _ ht
  obtain ⟨al, rfl⟩ := ht
  split
  · exact ⟨_, rfl⟩
  · exact ⟨_, rfl⟩

lemma beta_update_frame (s : HMState) (th : Int) :
    ∃ be, beta_update s th = { s with beta := be } := by
  unfold beta_update
  refine foldl_hmstate_pres (fun t => ∃ be, t = { s with beta := be }) _ _ s ⟨s.beta, rfl⟩ ?_
  intro t j _ ht
  obtain ⟨be, rfl⟩ := ht
  split
  · exact ⟨_, rfl⟩
  · exact ⟨_, rfl⟩

lemma modify_scan_frame :
    ∀ (js : List Int) (s : HMState) (th : Int),
      ∃ sl qq ar e m,
        (modify_scan s th js).1 =
          { s with slack := sl, q := qq, a := ar, exposed := e, mate := m } := by
  intro js
  induction js with
  | nil => intro s th; exact ⟨s.slack, s.q, s.a, s.exposed, s.mate, rfl⟩
  | cons j rest ih =>
    intro s th
    rw [modify_scan]
    split
    · split
      · split
        · obtain ⟨m, e, he⟩ :=
            hm_augment_frame
              (setExposed (setSlack s j (SLACK s j - 2 * th))
                (NHBOR (setSlack s j (SLACK s j - 2 * th)) j) j)
              (NHBOR (setExposed (setSlack s j (SLACK s j - 2 * th))
                (NHBOR (setSlack s j (SLACK s j - 2 * th)) j) j) j)
          refine ⟨Function.update s.slack (j - s.n) (SLACK s j - 2 * th), s.q, s.a, e, m, ?_⟩
          rw [he]
          rfl
        · obtain ⟨sl, qq, ar, e, m, hr⟩ :=
            ih (add_arc (stack_push (setSlack s j (SLACK s j - 2 * th))
              (NHBOR (setSlack s j (SLACK s j - 2 * th)) j))
              (NHBOR (setSlack s j (SLACK s j - 2 * th)) j)
              (MATE (setSlack s j (SLACK s j - 2 * th)) j)) th
          refine ⟨sl, qq, ar, e, m, ?_⟩
          rw [hr]
          rfl
      · obtain ⟨sl, qq, ar, e, m, hr⟩ := ih (setSlack s j (SLACK s j - 2 * th)) th
        refine ⟨sl, qq, ar, e, m, ?_⟩
        rw [hr]
        rfl
    · exact ih s th

lemma hm_modify_frame (s : HMState) :
    ∃ al be sl qq ar e m,
      (hm_modify s).1 =
        { s with alpha := al, beta := be, slack := sl, q := qq, a := ar,
                 exposed := e, mate := m } := by
  unfold hm_modify
  obtain ⟨al, ha⟩ := alpha_update_frame s (idiv (theta_one_of s) 2)
  obtain ⟨be, hb⟩ :=
    beta_update_frame (alpha_update s (idiv (theta_one_of s) 2)) (idiv (theta_one_of s) 2)
  obtain ⟨sl, qq, ar, e, m, hr⟩ :=
    modify_scan_frame (eachU s.n)
      (beta_update (alpha_update s (idiv (theta_one_of s) 2)) (idiv (theta_one_of s) 2))
      (idiv (theta_one_of s) 2)
  refine ⟨al, be, sl, qq, ar, e, m, ?_⟩
  rw [hr, hb, ha]

lemma stage_loop_frame (sf : Nat) (f : Nat) :
    ∀ s : HMState, (stage_loop sf f s).c = s.c ∧ (stage_loop sf f s).n = s.n := by
  induction f with
  | zero => intro s; exact ⟨rfl, rfl⟩
  | succ f ih =>
    intro s
    rw [stage_loop]
    rcases hs : hm_search sf s with ⟨s1, b1⟩
    obtain ⟨m, e, lb, qq, sl, nh, cnt, hr⟩ := hm_search_frame sf s
    rw [hs] at hr
    dsimp only at hr
    cases b1
    · dsimp only
      rw [hr]
      exact ⟨rfl, rfl⟩
    · dsimp only
      rcases hmo : hm_modify s1 with ⟨s2, b2⟩
      obtain ⟨al, be, sl2, qq2, ar2, e2, m2, hr2⟩ := hm_modify_frame s1
      rw [hmo] at hr2
      dsimp only at hr2
      cases b2
      · dsimp only
        rw [hr2, hr]
        exact ⟨rfl, rfl⟩
      · dsimp only
        obtain ⟨hc, hn⟩ := ih s2
        rw [hc, hn, hr2, hr]
        exact ⟨rfl, rfl⟩

lemma hm_stage_frame (sf lf : Nat) (s : HMState) :
    (hm_stage sf lf s).c = s.c ∧ (hm_stage sf lf s).n = s.n := by
  rw [hm_stage]
  obtain ⟨ar, e, l, cnt, sl, nh, hcon⟩ := hm_construct_frame s
  rcases hp : hm_pre_search (hm_construct_auxiliary_graph s) with ⟨s2, b⟩
  obtain ⟨m2, e2, lb2, qq2, sl2, nh2, cnt2, hr⟩ :=
    hm_pre_search_frame (hm_construct_auxiliary_graph s)
  rw [hp] at hr
  dsimp only at hr
  cases b
  · dsimp only
    rw [hr, hcon]
    exact ⟨rfl, rfl⟩
  · dsimp only
    obtain ⟨hc, hn⟩ := stage_loop_frame sf lf s2
    rw [hc, hn, hr, hcon]
    exact ⟨rfl, rfl⟩

lemma run_stages_frame (sf lf : Nat) (k : Nat) :
    ∀ s : HMState, (run_stages sf lf k s).c = s.c ∧ (run_stages sf lf k s).n = s.n := by
  induction k with
  | zero => intro s; exact ⟨rfl, rfl⟩
  | succ k ih =>
    intro s
    rw [run_stages]
    obtain ⟨hc, hn⟩ := ih (hm_stage sf lf s)
    obtain ⟨hc2, hn2⟩ := hm_stage_frame sf lf s
    exact ⟨hc.trans hc2, hn.trans hn2⟩

/-! ### Claim C6: the cost-matrix round trip, at machine precision -/

/-- `hungarian_method( mate, c, n )` with the entry doubling
`c[ i * n + j ] *= 2` taken at machine precision: a signed 32-bit `int`
wraps around on overflow (`wrap32`), so entries above `INT_MAX / 2` do not
double exactly.  The exit halving `/= 2` is C truncating division and
cannot overflow.  Apart from the wrap this is exactly `hungarian_method`
(which idealizes the doubling as exact integer multiplication). -/
def hungarian_method_wrapped (allocOk : Bool) (mate c : Int → Int) (n : Int) :
    Option (Int → Int) × (Int → Int) × (Int → Int) :=
  if allocOk = false then (none, mate, c)
  else
    (some (run_stages (search_fuel n) (loop_fuel n) n.toNat
        { hm_initialize
            { mate := mate, c := scale_costs (fun x => wrap32 (x * 2)) n c, n := n, q := [],
              a := [], alpha := fun _ => 0, beta := fun _ => 0, slack := fun _ => 0,
              nhbor := fun _ => 0, count := fun _ => 0, exposed := fun _ => 0,
              label := fun _ => 0 } with
          q := [], a := [] }).mate,
      (run_stages (search_fuel n) (loop_fuel n) n.toNat
        { hm_initialize
            { mate := mate, c := scale_costs (fun x => wrap32 (x * 2)) n c, n := n, q := [],
              a := [], alpha := fun _ => 0, beta := fun _ => 0, slack := fun _ => 0,
              nhbor := fun _ => 0, count := fun _ => 0, exposed := fun _ => 0,
              label := fun _ => 0 } with
          q := [], a := [] }).mate,
      scale_costs (fun x => idiv x 2) n
        (run_stages (search_fuel n) (loop_fuel n) n.toNat
          { hm_initialize
              { mate := mate, c := scale_costs (fun x => wrap32 (x * 2)) n c, n := n, q := [],
                a := [], alpha := fun _ => 0, beta := fun _ => 0, slack := fun _ => 0,
                nhbor := fun _ => 0, count := fun _ => 0, exposed := fun _ => 0,
                label := fun _ => 0 } with
            q := [], a := [] }).c)

/-- Claim C6 (corrected): after a successful `hungarian_method` call every
entry of the caller's cost matrix is restored to its input value — provided
the entry lies in `[0, INT_MAX / 2]`, so that the entry doubling
`c[ i * n + j ] *= 2` does not overflow the 32-bit `int`.  Nothing between
the two scalings writes to the cost buffer.  The unqualified round trip
claimed by the spec is false of the code: an entry above `INT_MAX / 2`
wraps during the doubling and comes back changed (see the counterexample
below). -/
theorem cost_matrix_round_trip (mate c : Int → Int) (n : Int) (x : Int)
    (hlo : 0 ≤ c x) (hhi : c x ≤ idiv INT_MAX 2) :
    (hungarian_method_wrapped true mate c n).2.2 x = c x := by
  unfold hungarian_method_wrapped
  rw [if_neg (by decide)]
  dsimp only
  rw [(run_stages_frame (search_fuel n) (loop_fuel n) n.toNat _).1]
  have hinit := hm_initialize_frame
    { mate := mate, c := scale_costs (fun x => wrap32 (x * 2)) n c, n := n, q := [], a := [],
      alpha := fun _ => 0, beta := fun _ => 0, slack := fun _ => 0,
      nhbor := fun _ => 0, count := fun _ => 0, exposed := fun _ => 0,
      label := fun _ => 0 }
  obtain ⟨m, al, be, hinit⟩ := hinit
  rw [show ({ hm_initialize
      { mate := mate, c := scale_costs (fun x => wrap32 (x * 2)) n c, n := n, q := [], a := [],
        alpha := fun _ => 0, beta := fun _ => 0, slack := fun _ => 0,
        nhbor := fun _ => 0, count := fun _ => 0, exposed := fun _ => 0,
        label := fun _ => 0 } with q := [], a := [] } : HMState).c =
      scale_costs (fun x => wrap32 (x * 2)) n c by rw [hinit]]
  rw [scale_costs_apply, scale_costs_apply]
  by_cases hx : x ∈ cost_indices n
  · rw [if_pos hx, if_pos hx]
    have hmax : idiv INT_MAX 2 = 1073741823 := by decide
    rw [hmax] at hhi
    have hw : wrap32 (c x * 2) = c x * 2 := by
      unfold wrap32
      omega
    show idiv (wrap32 (c x * 2)) 2 = c x
    rw [hw]
    exact Int.mul_tdiv_cancel (c x) (by decide)
  · rw [if_neg hx, if_neg hx]

/-- Counterexample to the unqualified round trip: a 1×1 cost matrix whose
single entry `2^30` exceeds `INT_MAX / 2`, so the doubling wraps and the
entry returned in the cost buffer differs from the input. -/
theorem cost_matrix_round_trip_counterexample :
    (hungarian_method_wrapped true (fun _ : Int => blank) (fun _ : Int => (1073741824 : Int))
        1).2.2 0 ≠ (1073741824 : Int) := by
  decide

/-- Witness for the corrected C6 at a 1×1 matrix with in-range entry `7`:
the preconditions hold and the entry round-trips. -/
theorem cost_matrix_round_trip_witness :
    ((0 : Int) ≤ (fun _ : Int => (7 : Int)) 0 ∧
      (fun _ : Int => (7 : Int)) 0 ≤ idiv INT_MAX 2) ∧
    (hungarian_method_wrapped true (fun _ : Int => blank) (fun _ : Int => (7 : Int)) 1).2.2 0 =
      (fun _ : Int => (7 : Int)) 0 :=
  ⟨⟨by decide, by decide⟩,
    cost_matrix_round_trip (fun _ => blank) (fun _ => 7) 1 0 (by decide) (by decide)⟩


/-! ### Characterization of the `theta_one` minimum -/

lemma foldl_guarded_min_le_init (f : Int → Int) (l : List Int) :
    ∀ init : Int,
      l.foldl (fun th j => if 0 < f j ∧ f j < th then f j else th) init ≤ init := by
  induction l with
  | nil => intro init; exact le_refl _
  | cons a l ih =>
    intro init
    rw [List.foldl_cons]
    by_cases h : 0 < f a ∧ f a < init
    · rw [if_pos h]
      exact (ih (f a)).trans (le_of_lt h.2)
    · rw [if_neg h]
      exact ih init

lemma foldl_guarded_min_le (f : Int → Int) (l : List Int) :
    ∀ (init : Int) (x : Int), x ∈ l → 0 < f x →
      l.foldl (fun th j => if 0 < f j ∧ f j < th then f j else th) init ≤ f x := by
  induction l with
  | nil => intro _ x hx; exact absurd hx (List.not_mem_nil x)
  | cons a l ih =>
    intro init x hx hfx
    rw [List.foldl_cons]
    rcases List.mem_cons.mp hx with rfl | hx2
    · by_cases h : 0 < f x ∧ f x < init
      · rw [if_pos h]
        exact foldl_guarded_min_le_init f l (f x)
      · rw [if_neg h]
        have hix : init ≤ f x := by
          by_cases h2 : f x < init
          · exact absurd ⟨hfx, h2⟩ h
          · omega
        exact (foldl_guarded_min_le_init f l init).trans hix
    · by_cases h : 0 < f a ∧ f a < init
      · rw [if_pos h]
        exact ih (f a) x hx2 hfx
      · rw [if_neg h]
        exact ih init x hx2 hfx

lemma foldl_guarded_min_mem (f : Int → Int) (l : List Int) :
    ∀ init : Int,
      l.foldl (fun th j => if 0 < f j ∧ f j < th then f j else th) init = init ∨
        ∃ x ∈ l, 0 < f x ∧
          l.foldl (fun th j => if 0 < f j ∧ f j < th then f j else th) init = f x := by
  induction l with
  | nil => intro init; exact Or.inl rfl
  | cons a l ih =>
    intro init
    rw [List.foldl_cons]
    by_cases h : 0 < f a ∧ f a < init
    · rw [if_pos h]
      rcases ih (f a) with he | ⟨x, hx, hfx, he⟩
      · exact Or.inr ⟨a, by simp, h.1, he⟩
      · exact Or.inr ⟨x, by simp [hx], hfx, he⟩
    · rw [if_neg h]
      rcases ih init with he | ⟨x, hx, hfx, he⟩
      · exact Or.inl he
      · exact Or.inr ⟨x, by simp [hx], hfx, he⟩

lemma theta_one_of_le (s : HMState) (j : Int) (hj : j ∈ eachU s.n) (hpos : 0 < SLACK s j) :
    theta_one_of s ≤ SLACK s j :=
  foldl_guarded_min_le (fun j => SLACK s j) (eachU s.n) INT_MAX j hj hpos

lemma theta_one_of_nonneg (s : HMState) (hs : ∀ j ∈ eachU s.n, 0 ≤ SLACK s j) :
    0 ≤ theta_one_of s := by
  rcases foldl_guarded_min_mem (fun j => SLACK s j) (eachU s.n) INT_MAX with he | ⟨x, hx, hfx, he⟩
  · rw [theta_one_of, he]; decide
  · rw [theta_one_of, he]; exact hs x hx

lemma theta_one_of_pos (s : HMState) :
    theta_one_of s = INT_MAX ∨ ∃ j ∈ eachU s.n, 0 < SLACK s j ∧ theta_one_of s = SLACK s j := by
  rcases foldl_guarded_min_mem (fun j => SLACK s j) (eachU s.n) INT_MAX with he | ⟨x, hx, hfx, he⟩
  · exact Or.inl he
  · exact Or.inr ⟨x, hx, hfx, he⟩

/-! ### Pointwise characterization of the alpha and beta update loops -/

lemma alpha_fold_spec (th : Int) :
    ∀ (l : List Int), l.Nodup → ∀ t : HMState,
      (∀ i ∈ l,
        ALPHA (l.foldl
          (fun t i =>
            if LABEL t i ≠ blank ∨ 0 < COUNT t i then setAlpha t i (ALPHA t i + th)
            else setAlpha t i (ALPHA t i - th)) t) i =
          if LABEL t i ≠ blank ∨ 0 < COUNT t i then ALPHA t i + th else ALPHA t i - th) ∧
      (∀ i, i ∉ l →
        ALPHA (l.foldl
          (fun t i =>
            if LABEL t i ≠ blank ∨ 0 < COUNT t i then setAlpha t i (ALPHA t i + th)
            else setAlpha t i (ALPHA t i - th)) t) i = ALPHA t i) := by
  intro l
  induction l with
  | nil => intro _ t; exact ⟨fun i hi => absurd hi (List.not_mem_nil i), fun i _ => rfl⟩
  | cons a l ih =>
    intro hnd t
    have hnd2 := List.nodup_cons.mp hnd
    rw [List.foldl_cons]
    constructor
    · intro i hi
      rcases List.mem_cons.mp hi with rfl | hi2
      · by_cases hc : LABEL t i ≠ blank ∨ 0 < COUNT t i
        · rw [if_pos hc, if_pos hc, (ih hnd2.2 _).2 i hnd2.1]
          simp
        · rw [if_neg hc, if_neg hc, (ih hnd2.2 _).2 i hnd2.1]
          simp
      · have hne : i ≠ a := fun he => hnd2.1 (he ▸ hi2)
        by_cases hc : LABEL t a ≠ blank ∨ 0 < COUNT t a
        · rw [if_pos hc, (ih hnd2.2 _).1 i hi2]
          simp [hne]
        · rw [if_neg hc, (ih hnd2.2 _).1 i hi2]
          simp [hne]
    · intro i hi
      have hia : i ≠ a := fun he => hi (he ▸ List.mem_cons_self a l)
      have hil : i ∉ l := fun he => hi (List.mem_cons_of_mem a he)
      by_cases hc : LABEL t a ≠ blank ∨ 0 < COUNT t a
      · rw [if_pos hc, (ih hnd2.2 _).2 i hil]
        simp [hia]
      · rw [if_neg hc, (ih hnd2.2 _).2 i hil]
        simp [hia]

lemma alpha_update_spec (s : HMState) (th : Int) :
    ∀ i ∈ eachV s.n,
      ALPHA (alpha_update s th) i =
        if LABEL s i ≠ blank ∨ 0 < COUNT s i then ALPHA s i + th else ALPHA s i - th := by
  intro i hi
  exact (alpha_fold_spec th (eachV s.n) (nodup_eachV s.n) s).1 i hi

lemma beta_fold_spec (th : Int) (n0 : Int) :
    ∀ (l : List Int), (∀ x ∈ l, ∀ y ∈ l, x - n0 = y - n0 → x = y) → l.Nodup →
      ∀ t : HMState, t.n = n0 →
      (∀ j ∈ l,
        BETA (l.foldl
          (fun t j =>
            if SLACK t j = 0 then setBeta t j (BETA t j - th) else setBeta t j (BETA t j + th)) t) j =
          if SLACK t j = 0 then BETA t j - th else BETA t j + th) ∧
      (∀ j, (∀ x ∈ l, j - n0 ≠ x - n0) →
        BETA (l.foldl
          (fun t j =>
            if SLACK t j = 0 then setBeta t j (BETA t j - th) else setBeta t j (BETA t j + th)) t) j =
          BETA t j) := by
  intro l
  induction l with
  | nil => intro _ _ t _; exact ⟨fun j hj => absurd hj (List.not_mem_nil j), fun j _ => rfl⟩
  | cons a l ih =>
    intro hinj hnd t htn
    have hnd2 := List.nodup_cons.mp hnd
    have hinj2 : ∀ x ∈ l, ∀ y ∈ l, x - n0 = y - n0 → x = y := fun x hx y hy =>
      hinj x (List.mem_cons_of_mem a hx) y (List.mem_cons_of_mem a hy)
    rw [List.foldl_cons]
    have hstep : ∀ (b : HMState) (v : Int), (setBeta b a v).n = b.n := fun b v => rfl
    have havoid : ∀ x ∈ l, a - n0 ≠ x - n0 := by
      intro x hx he
      exact hnd2.1 ((hinj a (List.mem_cons_self a l) x (List.mem_cons_of_mem a hx) he) ▸ hx)
    constructor
    · intro j hj
      rcases List.mem_cons.mp hj with rfl | hj2
      · by_cases hc : SLACK t j = 0
        · rw [if_pos hc, if_pos hc, (ih hinj2 hnd2.2 _ (by rw [hstep, htn])).2 j havoid]
          simp
        · rw [if_neg hc, if_neg hc, (ih hinj2 hnd2.2 _ (by rw [hstep, htn])).2 j havoid]
          simp
      · have hne : j - t.n ≠ a - t.n := by
          rw [htn]
          intro he
          exact hnd2.1 ((hinj j hj a (List.mem_cons_self a l) he) ▸ hj2)
        by_cases hc : SLACK t a = 0
        · rw [if_pos hc, (ih hinj2 hnd2.2 _ (by rw [hstep, htn])).1 j hj2]
          simp [hne]
        · rw [if_neg hc, (ih hinj2 hnd2.2 _ (by rw [hstep, htn])).1 j hj2]
          simp [hne]
    · intro j hj
      have hjl : ∀ x ∈ l, j - n0 ≠ x - n0 := fun x hx => hj x (List.mem_cons_of_mem a hx)
      have hja : j - t.n ≠ a - t.n := by
        rw [htn]
        exact hj a (List.mem_cons_self a l)
      by_cases hc : SLACK t a = 0
      · rw [if_pos hc, (ih hinj2 hnd2.2 _ (by rw [hstep, htn])).2 j hjl]
        simp [hja]
      · rw [if_neg hc, (ih hinj2 hnd2.2 _ (by rw [hstep, htn])).2 j hjl]
        simp [hja]

lemma eachU_offset_inj (n : Int) :
    ∀ x ∈ eachU n, ∀ y ∈ eachU n, x - n = y - n → x = y := by
  intro x _ y _ he
  omega

lemma beta_update_spec (s : HMState) (th : Int) :
    ∀ j ∈ eachU s.n,
      BETA (beta_update s th) j =
        if SLACK s j = 0 then BETA s j - th else BETA s j + th := by
  intro j hj
  exact (beta_fold_spec th s.n (eachU s.n) (eachU_offset_inj s.n) (nodup_eachU s.n) s rfl).1 j hj

/-! ### Claim C2: the dual-update (relaxation) step of `hm_modify` -/

lemma ALPHA_hm_modify (s : HMState) (i : Int) :
    ALPHA (hm_modify s).1 i = ALPHA (alpha_update s (idiv (theta_one_of s) 2)) i := by
  obtain ⟨sl, qq, ar, e, m, hr⟩ := modify_scan_frame (eachU s.n)
    (beta_update (alpha_update s (idiv (theta_one_of s) 2)) (idiv (theta_one_of s) 2))
    (idiv (theta_one_of s) 2)
  obtain ⟨be, hb⟩ :=
    beta_update_frame (alpha_update s (idiv (theta_one_of s) 2)) (idiv (theta_one_of s) 2)
  show ALPHA (modify_scan
    (beta_update (alpha_update s (idiv (theta_one_of s) 2)) (idiv (theta_one_of s) 2))
    (idiv (theta_one_of s) 2) (eachU s.n)).1 i = _
  rw [hr, hb]
  rfl

lemma BETA_hm_modify (s : HMState) (j : Int) :
    BETA (hm_modify s).1 j =
      BETA (beta_update (alpha_update s (idiv (theta_one_of s) 2)) (idiv (theta_one_of s) 2)) j := by
  obtain ⟨sl, qq, ar, e, m, hr⟩ := modify_scan_frame (eachU s.n)
    (beta_update (alpha_update s (idiv (theta_one_of s) 2)) (idiv (theta_one_of s) 2))
    (idiv (theta_one_of s) 2)
  show BETA (modify_scan
    (beta_update (alpha_update s (idiv (theta_one_of s) 2)) (idiv (theta_one_of s) 2))
    (idiv (theta_one_of s) 2) (eachU s.n)).1 j = _
  rw [hr]
  rfl

lemma alpha_update_preserves (s : HMState) (th : Int) :
    SLACK (alpha_update s th) = SLACK s ∧ BETA (alpha_update s th) = BETA s ∧
      (alpha_update s th).n = s.n := by
  obtain ⟨al, ha⟩ := alpha_update_frame s th
  rw [ha]
  exact ⟨rfl, rfl, rfl⟩

/-- Claim C2: in the dual-update step of `hm_modify`, the step size `θ` is
the minimum strictly positive slack over all `u ∈ U`, divided by two; for
every `v ∈ V`, `alpha[v]` is increased by `θ` exactly when `v` is labeled or
has a positive tightest-neighbor count and decreased by `θ` otherwise; for
every `u ∈ U`, `beta[u]` is decreased by `θ` exactly when `slack[u] = 0` and
increased by `θ` otherwise. -/
theorem hm_modify_dual_update_spec (s : HMState)
    (hpos : ∃ j ∈ eachU s.n, 0 < SLACK s j)
    (hbound : ∀ j ∈ eachU s.n, SLACK s j ≤ INT_MAX) :
    ((∃ j ∈ eachU s.n, 0 < SLACK s j ∧ theta_one_of s = SLACK s j) ∧
      (∀ j ∈ eachU s.n, 0 < SLACK s j → theta_one_of s ≤ SLACK s j)) ∧
    (∀ i ∈ eachV s.n,
      ALPHA (hm_modify s).1 i =
        if LABEL s i ≠ blank ∨ 0 < COUNT s i then ALPHA s i + idiv (theta_one_of s) 2
        else ALPHA s i - idiv (theta_one_of s) 2) ∧
    (∀ j ∈ eachU s.n,
      BETA (hm_modify s).1 j =
        if SLACK s j = 0 then BETA s j - idiv (theta_one_of s) 2
        else BETA s j + idiv (theta_one_of s) 2) := by
  refine ⟨⟨?_, fun j hj hp => theta_one_of_le s j hj hp⟩, ?_, ?_⟩
  · rcases theta_one_of_pos s with he | hmem
    · obtain ⟨j0, hj0, hp0⟩ := hpos
      refine ⟨j0, hj0, hp0, ?_⟩
      have h1 := theta_one_of_le s j0 hj0 hp0
      have h2 := hbound j0 hj0
      omega
    · exact hmem
  · intro i hi
    rw [ALPHA_hm_modify, alpha_update_spec s _ i hi]
  · intro j hj
    obtain ⟨hsl, hbe, hn⟩ := alpha_update_preserves s (idiv (theta_one_of s) 2)
    rw [BETA_hm_modify]
    have hj2 : j ∈ eachU (alpha_update s (idiv (theta_one_of s) 2)).n := by rw [hn]; exact hj
    rw [beta_update_spec _ _ j hj2, hsl, hbe]

/-- A concrete 1×1 state for exercising `hm_modify_dual_update_spec`:
one U-vertex of slack 4, no labels, no counts. -/
def c2_state : HMState :=
  { mate := fun _ => -1, c := fun _ => 4, n := 1, q := [], a := [],
    alpha := fun _ => 0, beta := fun _ => 0, slack := fun _ => 4,
    nhbor := fun _ => 0, count := fun _ => 0, exposed := fun _ => -1,
    label := fun _ => -1 }

/-- Witness for C2 at `c2_state`: the hypotheses hold and the dual update
behaves as specified (θ₁ = 4, θ = 2, alpha decreases, beta increases). -/
theorem hm_modify_dual_update_spec_witness :
    ((∃ j ∈ eachU c2_state.n, 0 < SLACK c2_state j) ∧
      (∀ j ∈ eachU c2_state.n, SLACK c2_state j ≤ INT_MAX)) ∧
    (((∃ j ∈ eachU c2_state.n, 0 < SLACK c2_state j ∧ theta_one_of c2_state = SLACK c2_state j) ∧
      (∀ j ∈ eachU c2_state.n, 0 < SLACK c2_state j → theta_one_of c2_state ≤ SLACK c2_state j)) ∧
    (∀ i ∈ eachV c2_state.n,
      ALPHA (hm_modify c2_state).1 i =
        if LABEL c2_state i ≠ blank ∨ 0 < COUNT c2_state i then
          ALPHA c2_state i + idiv (theta_one_of c2_state) 2
        else ALPHA c2_state i - idiv (theta_one_of c2_state) 2) ∧
    (∀ j ∈ eachU c2_state.n,
      BETA (hm_modify c2_state).1 j =
        if SLACK c2_state j = 0 then BETA c2_state j - idiv (theta_one_of c2_state) 2
        else BETA c2_state j + idiv (theta_one_of c2_state) 2)) :=
  ⟨⟨by decide, by decide⟩, hm_modify_dual_update_spec c2_state (by decide) (by decide)⟩

/-! ### Claim C4: behaviour of `hm_modify` when a slack reaches zero -/

/-- `j`'s slack is positive and is brought to exactly zero by the `2θ`
decrement of the final `hm_modify` loop. -/
def isHitB (s : HMState) (th j : Int) : Bool :=
  decide (0 < SLACK s j) && decide (SLACK s j - 2 * th = 0)

/-- `j` is a hit whose `U`-vertex is unmatched: the loop augments and ends
the stage there. -/
def stopB (s : HMState) (th j : Int) : Bool :=
  isHitB s th j && decide (MATE s j = blank)

lemma takeWhile_congr {p q : Int → Bool} :
    ∀ {l : List Int}, (∀ x ∈ l, p x = q x) → l.takeWhile p = l.takeWhile q := by
  intro l
  induction l with
  | nil => intro _; rfl
  | cons a l ih =>
    intro h
    rw [List.takeWhile_cons, List.takeWhile_cons, h a (List.mem_cons_self a l),
      ih (fun x hx => h x (List.mem_cons_of_mem a hx))]

lemma dropWhile_congr {p q : Int → Bool} :
    ∀ {l : List Int}, (∀ x ∈ l, p x = q x) → l.dropWhile p = l.dropWhile q := by
  intro l
  induction l with
  | nil => intro _; rfl
  | cons a l ih =>
    intro h
    rw [List.dropWhile_cons, List.dropWhile_cons, h a (List.mem_cons_self a l),
      ih (fun x hx => h x (List.mem_cons_of_mem a hx))]

lemma mem_of_dropWhile_cons {p : Int → Bool} :
    ∀ {l : List Int} {j0 : Int} {rest : List Int}, l.dropWhile p = j0 :: rest → j0 ∈ l := by
  intro l
  induction l with
  | nil => intro j0 rest h; exact absurd h (by simp)
  | cons a l ih =>
    intro j0 rest h
    rw [List.dropWhile_cons] at h
    by_cases hp : p a = true
    · rw [if_pos hp] at h
      exact List.mem_cons_of_mem a (ih h)
    · rw [if_neg hp] at h
      cases h
      exact List.mem_cons_self a l

lemma modify_scan_all_matched :
    ∀ (js : List Int) (s : HMState) (th : Int), js.Nodup →
      (∀ j ∈ js, isHitB s th j = true → MATE s j ≠ blank) →
      (modify_scan s th js).2 = true ∧
      (modify_scan s th js).1.q =
        ((js.filter (isHitB s th)).map (fun j => NHBOR s j)).reverse ++ s.q ∧
      (modify_scan s th js).1.a =
        s.a ++ (js.filter (isHitB s th)).map (fun j => (NHBOR s j, MATE s j)) ∧
      (modify_scan s th js).1.mate = s.mate := by
  intro js
  induction js with
  | nil => intro s th _ _; exact ⟨rfl, by simp [modify_scan], by simp [modify_scan], rfl⟩
  | cons j rest ih =>
    intro s th hnd hmm
    have hnd2 := List.nodup_cons.mp hnd
    rw [modify_scan]
    by_cases h1 : 0 < SLACK s j
    · rw [if_pos h1]
      by_cases h2 : SLACK s j - 2 * th = 0
      · have h2x : SLACK (setSlack s j (SLACK s j - 2 * th)) j = 0 := by simp [h2]
        rw [if_pos h2x]
        have hhit : isHitB s th j = true := by
          simp only [isHitB, Bool.and_eq_true, decide_eq_true_eq]
          exact ⟨h1, h2⟩
        have hmatched : ¬MATE s j = blank := hmm j (List.mem_cons_self j rest) hhit
        have h3 : ¬MATE (setSlack s j (SLACK s j - 2 * th)) j = blank := by
          simpa using hmatched
        rw [if_neg h3]
        set s1 := add_arc
          (stack_push (setSlack s j (SLACK s j - 2 * th))
            (NHBOR (setSlack s j (SLACK s j - 2 * th)) j))
          (NHBOR (setSlack s j (SLACK s j - 2 * th)) j)
          (MATE (setSlack s j (SLACK s j - 2 * th)) j) with hs1
        have hSx : ∀ x ∈ rest, SLACK s1 x = SLACK s x := by
          intro x hx
          have hne : x ≠ j := fun he => hnd2.1 (he ▸ hx)
          rw [hs1]
          simp only [SLACK_add_arc, SLACK_stack_push, SLACK_setSlack]
          rw [if_neg (by omega)]
        have hMx : ∀ x : Int, MATE s1 x = MATE s x := by
          intro x
          rw [hs1]
          simp
        have hNx : ∀ x : Int, NHBOR s1 x = NHBOR s x := by
          intro x
          rw [hs1]
          simp
        have hpred : ∀ x ∈ rest, isHitB s1 th x = isHitB s th x := by
          intro x hx
          simp only [isHitB, hSx x hx]
        obtain ⟨hb, hq, ha, hm⟩ := ih s1 th hnd2.2
          (fun x hx hhx => by
            rw [hMx x]
            exact hmm x (List.mem_cons_of_mem j hx) ((hpred x hx) ▸ hhx))
        refine ⟨hb, ?_, ?_, ?_⟩
        · rw [hq, List.filter_congr hpred,
            List.map_congr_left (fun x hx => hNx x),
            List.filter_cons, if_pos hhit, List.map_cons, List.reverse_cons,
            List.append_assoc]
          have hq1 : s1.q = NHBOR s j :: s.q := by rw [hs1]; simp
          rw [hq1]
          rfl
        · rw [ha, List.filter_congr hpred,
            List.map_congr_left (fun x hx => by rw [hNx x, hMx x]),
            List.filter_cons, if_pos hhit, List.map_cons]
          have ha1 : s1.a = s.a ++ [(NHBOR s j, MATE s j)] := by rw [hs1]; simp
          rw [ha1, List.append_assoc]
          rfl
        · rw [hm, hs1]
          simp
      · have h2x : ¬SLACK (setSlack s j (SLACK s j - 2 * th)) j = 0 := by simpa using h2
        rw [if_neg h2x]
        have hnohit : isHitB s th j = false := by
          simp only [isHitB, Bool.and_eq_false_iff, decide_eq_false_iff_not]
          exact Or.inr h2
        set s1 := setSlack s j (SLACK s j - 2 * th) with hs1
        have hSx : ∀ x ∈ rest, SLACK s1 x = SLACK s x := by
          intro x hx
          have hne : x ≠ j := fun he => hnd2.1 (he ▸ hx)
          rw [hs1]
          simp only [SLACK_setSlack]
          rw [if_neg (by omega)]
        have hMx : ∀ x : Int, MATE s1 x = MATE s x := by
          intro x
          rw [hs1]
          simp
        have hNx : ∀ x : Int, NHBOR s1 x = NHBOR s x := by
          intro x
          rw [hs1]
          simp
        have hpred : ∀ x ∈ rest, isHitB s1 th x = isHitB s th x := by
          intro x hx
          simp only [isHitB, hSx x hx]
        obtain ⟨hb, hq, ha, hm⟩ := ih s1 th hnd2.2
          (fun x hx hhx => by
            rw [hMx x]
            exact hmm x (List.mem_cons_of_mem j hx) ((hpred x hx) ▸ hhx))
        refine ⟨hb, ?_, ?_, ?_⟩
        · rw [hq, List.filter_congr hpred,
            List.map_congr_left (fun x hx => hNx x),
            List.filter_cons, if_neg (by rw [hnohit]; exact Bool.false_ne_true)]
          rw [hs1]
          rfl
        · rw [ha, List.filter_congr hpred,
            List.map_congr_left (fun x hx => by rw [hNx x, hMx x]),
            List.filter_cons, if_neg (by rw [hnohit]; exact Bool.false_ne_true)]
          rw [hs1]
          rfl
        · rw [hm, hs1]
          rfl
    · rw [if_neg h1]
      have hnohit : isHitB s th j = false := by
        simp only [isHitB, Bool.and_eq_false_iff, decide_eq_false_iff_not]
        exact Or.inl h1
      obtain ⟨hb, hq, ha, hm⟩ := ih s th hnd2.2
        (fun x hx hhx => hmm x (List.mem_cons_of_mem j hx) hhx)
      refine ⟨hb, ?_, ?_, hm⟩
      · rw [hq, List.filter_cons, if_neg (by rw [hnohit]; exact Bool.false_ne_true)]
      · rw [ha, List.filter_cons, if_neg (by rw [hnohit]; exact Bool.false_ne_true)]

lemma modify_scan_first_exposed :
    ∀ (js : List Int) (s : HMState) (th : Int), js.Nodup →
      ∀ j0 rest, js.dropWhile (fun j => !stopB s th j) = j0 :: rest →
        (modify_scan s th js).2 = false ∧
        (modify_scan s th js).1 =
          hm_augment
            (setExposed
              (setSlack (modify_scan s th (js.takeWhile (fun j => !stopB s th j))).1 j0
                (SLACK s j0 - 2 * th))
              (NHBOR s j0) j0)
            (NHBOR s j0) := by
  intro js
  induction js with
  | nil => intro s th _ j0 rest h; exact absurd h (by simp)
  | cons j rest0 ih =>
    intro s th hnd j0 rest hdrop
    have hnd2 := List.nodup_cons.mp hnd
    rw [List.dropWhile_cons] at hdrop
    cases hsb : stopB s th j with
    | true =>
      rw [hsb] at hdrop
      rw [if_neg (by decide)] at hdrop
      injection hdrop with he1 he2
      subst he1
      subst he2
      have hsx := hsb
      simp only [stopB, isHitB, Bool.and_eq_true, decide_eq_true_eq] at hsx
      obtain ⟨⟨h1, h2⟩, h3⟩ := hsx
      have htake : (j :: rest0).takeWhile (fun x => !stopB s th x) = [] := by
        rw [List.takeWhile_cons, hsb]
        rfl
      rw [htake, modify_scan]
      rw [modify_scan, if_pos h1]
      have h2x : SLACK (setSlack s j (SLACK s j - 2 * th)) j = 0 := by simp [h2]
      rw [if_pos h2x]
      have h3x : MATE (setSlack s j (SLACK s j - 2 * th)) j = blank := by simpa using h3
      rw [if_pos h3x]
      exact ⟨rfl, rfl⟩
    | false =>
      rw [hsb] at hdrop
      rw [if_pos (by decide)] at hdrop
      have htake : (j :: rest0).takeWhile (fun x => !stopB s th x) =
          j :: rest0.takeWhile (fun x => !stopB s th x) := by
        rw [List.takeWhile_cons, hsb]
        rfl
      have hj0mem : j0 ∈ rest0 := mem_of_dropWhile_cons hdrop
      have hj0ne : j0 ≠ j := fun he => hnd2.1 (he ▸ hj0mem)
      by_cases h1 : 0 < SLACK s j
      · by_cases h2 : SLACK s j - 2 * th = 0
        · -- hit at a matched vertex: push nhbor, add arc, continue
          have h3 : ¬MATE s j = blank := by
            intro hmb
            have hc : stopB s th j = true := by
              simp only [stopB, isHitB, Bool.and_eq_true, decide_eq_true_eq]
              exact ⟨⟨h1, h2⟩, hmb⟩
            rw [hsb] at hc
            exact absurd hc (by decide)
          have hstep : ∀ L : List Int,
              modify_scan s th (j :: L) =
                modify_scan
                  (add_arc (stack_push (setSlack s j (SLACK s j - 2 * th))
                    (NHBOR (setSlack s j (SLACK s j - 2 * th)) j))
                    (NHBOR (setSlack s j (SLACK s j - 2 * th)) j)
                    (MATE (setSlack s j (SLACK s j - 2 * th)) j)) th L := by
            intro L
            rw [modify_scan, if_pos h1, if_pos (by simp [h2] :
              SLACK (setSlack s j (SLACK s j - 2 * th)) j = 0),
              if_neg (by simpa using h3 :
                ¬MATE (setSlack s j (SLACK s j - 2 * th)) j = blank)]
          set s1 := add_arc (stack_push (setSlack s j (SLACK s j - 2 * th))
            (NHBOR (setSlack s j (SLACK s j - 2 * th)) j))
            (NHBOR (setSlack s j (SLACK s j - 2 * th)) j)
            (MATE (setSlack s j (SLACK s j - 2 * th)) j) with hs1
          have hSx : ∀ x ∈ rest0, SLACK s1 x = SLACK s x := by
            intro x hx
            have hne : x ≠ j := fun he => hnd2.1 (he ▸ hx)
            rw [hs1]
            simp only [SLACK_add_arc, SLACK_stack_push, SLACK_setSlack]
            rw [if_neg (by omega)]
          have hMx : ∀ x : Int, MATE s1 x = MATE s x := by intro x; rw [hs1]; simp
          have hNx : ∀ x : Int, NHBOR s1 x = NHBOR s x := by intro x; rw [hs1]; simp
          have hpred : ∀ x ∈ rest0,
              (fun y => !stopB s1 th y) x = (fun y => !stopB s th y) x := by
            intro x hx
            simp only [stopB, isHitB, hSx x hx, hMx x]
          have hdrop2 : rest0.dropWhile (fun y => !stopB s1 th y) = j0 :: rest := by
            rw [dropWhile_congr hpred]
            exact hdrop
          obtain ⟨hb, hr⟩ := ih s1 th hnd2.2 j0 rest hdrop2
          rw [hstep rest0, htake, hstep (rest0.takeWhile (fun x => !stopB s th x))]
          refine ⟨hb, ?_⟩
          rw [hr, takeWhile_congr hpred, hSx j0 hj0mem, hNx j0]
        · -- positive slack that does not reach zero: just decrement
          have hstep : ∀ L : List Int,
              modify_scan s th (j :: L) =
                modify_scan (setSlack s j (SLACK s j - 2 * th)) th L := by
            intro L
            rw [modify_scan, if_pos h1,
              if_neg (by simpa using h2 :
                ¬SLACK (setSlack s j (SLACK s j - 2 * th)) j = 0)]
          set s1 := setSlack s j (SLACK s j - 2 * th) with hs1
          have hSx : ∀ x ∈ rest0, SLACK s1 x = SLACK s x := by
            intro x hx
            have hne : x ≠ j := fun he => hnd2.1 (he ▸ hx)
            rw [hs1]
            simp only [SLACK_setSlack]
            rw [if_neg (by omega)]
          have hMx : ∀ x : Int, MATE s1 x = MATE s x := by intro x; rw [hs1]; simp
          have hNx : ∀ x : Int, NHBOR s1 x = NHBOR s x := by intro x; rw [hs1]; simp
          have hpred : ∀ x ∈ rest0,
              (fun y => !stopB s1 th y) x = (fun y => !stopB s th y) x := by
            intro x hx
            simp only [stopB, isHitB, hSx x hx, hMx x]
          have hdrop2 : rest0.dropWhile (fun y => !stopB s1 th y) = j0 :: rest := by
            rw [dropWhile_congr hpred]
            exact hdrop
          obtain ⟨hb, hr⟩ := ih s1 th hnd2.2 j0 rest hdrop2
          rw [hstep rest0, htake, hstep (rest0.takeWhile (fun x => !stopB s th x))]
          refine ⟨hb, ?_⟩
          rw [hr, takeWhile_congr hpred, hSx j0 hj0mem, hNx j0]
      · -- non-positive slack: skip
        have hstep : ∀ L : List Int,
            modify_scan s th (j :: L) = modify_scan s th L := by
          intro L
          rw [modify_scan, if_neg h1]
        obtain ⟨hb, hr⟩ := ih s th hnd2.2 j0 rest hdrop
        rw [hstep rest0, htake, hstep (rest0.takeWhile (fun x => !stopB s th x))]
        exact ⟨hb, hr⟩

/-- Claim C4: in the final loop of `hm_modify`, when decrementing a positive
slack by `2θ` brings `slack[u]` to exactly 0: if `u` is matched, the solver
pushes `nhbor[u]` (not `mate[u]`) onto the search stack, adds the auxiliary
arc `(nhbor[u], mate[u])`, assigns no label (the label array is untouched by
the whole loop, in particular `mate[u]` is not relabeled), and continues
(returns `true`, so the stage loop proceeds directly with `hm_search`, never
re-running `hm_pre_search`); if `u` is unmatched, it augments immediately
via `nhbor[u]` (after exposing it to `u`) and ends the stage (returns
`false`).  The first conjunct records that `hm_modify` is exactly this loop
run on the dual-updated state over `eachU`. -/
theorem hm_modify_new_admissible_edge_spec (s : HMState) (th : Int) (js : List Int)
    (hnd : js.Nodup) :
    (hm_modify s =
      modify_scan
        (beta_update (alpha_update s (idiv (theta_one_of s) 2)) (idiv (theta_one_of s) 2))
        (idiv (theta_one_of s) 2) (eachU s.n)) ∧
    (modify_scan s th js).1.label = s.label ∧
    ((∀ j ∈ js, isHitB s th j = true → MATE s j ≠ blank) →
      (modify_scan s th js).2 = true ∧
      (modify_scan s th js).1.q =
        ((js.filter (isHitB s th)).map (fun j => NHBOR s j)).reverse ++ s.q ∧
      (modify_scan s th js).1.a =
        s.a ++ (js.filter (isHitB s th)).map (fun j => (NHBOR s j, MATE s j)) ∧
      (modify_scan s th js).1.mate = s.mate) ∧
    (∀ j0 rest, js.dropWhile (fun j => !stopB s th j) = j0 :: rest →
      (modify_scan s th js).2 = false ∧
      (modify_scan s th js).1 =
        hm_augment
          (setExposed
            (setSlack (modify_scan s th (js.takeWhile (fun j => !stopB s th j))).1 j0
              (SLACK s j0 - 2 * th))
            (NHBOR s j0) j0)
          (NHBOR s j0)) := by
  refine ⟨rfl, ?_, modify_scan_all_matched js s th hnd, modify_scan_first_exposed js s th hnd⟩
  obtain ⟨sl, qq, ar, e, m, hr⟩ := modify_scan_frame js s th
  rw [hr]

/-- A concrete 2×2 state for C4: `u = 2` has slack 2 (a hit at `θ = 1`) and
is matched to 0, `u = 3` has slack 3 (no hit). -/
def c4_state : HMState :=
  { mate := fun k => if k = 2 then 0 else -1, c := fun _ => 0, n := 2, q := [], a := [],
    alpha := fun _ => 0, beta := fun _ => 0,
    slack := fun k => if k = 0 then 2 else 3,
    nhbor := fun _ => 0, count := fun _ => 0, exposed := fun _ => -1,
    label := fun _ => -1 }

/-- Witness for C4 at `c4_state` with `θ = 1`: all hits are matched, so the
loop pushes the tightest neighbors, adds the arcs, touches no label and
returns `true`. -/
theorem hm_modify_new_admissible_edge_spec_witness :
    (eachU c4_state.n).Nodup ∧
    (modify_scan c4_state 1 (eachU c4_state.n)).1.label = c4_state.label ∧
    ((∀ j ∈ eachU c4_state.n, isHitB c4_state 1 j = true → MATE c4_state j ≠ blank) ∧
      (modify_scan c4_state 1 (eachU c4_state.n)).2 = true ∧
      (modify_scan c4_state 1 (eachU c4_state.n)).1.q =
        (((eachU c4_state.n).filter (isHitB c4_state 1)).map
          (fun j => NHBOR c4_state j)).reverse ++ c4_state.q ∧
      (modify_scan c4_state 1 (eachU c4_state.n)).1.a =
        c4_state.a ++ ((eachU c4_state.n).filter (isHitB c4_state 1)).map
          (fun j => (NHBOR c4_state j, MATE c4_state j)) ∧
      (modify_scan c4_state 1 (eachU c4_state.n)).1.mate = c4_state.mate) :=
  ⟨by decide,
    (hm_modify_new_admissible_edge_spec c4_state 1 (eachU c4_state.n) (by decide)).2.1,
    by decide,
    (hm_modify_new_admissible_edge_spec c4_state 1 (eachU c4_state.n) (by decide)).2.2.1
      (by decide)⟩

/-! ### Claim C8: the `count[]`/`nhbor[]` bookkeeping invariant -/

/-- The invariant attached to the `count[]` array (see the comment block in
`hm_construct_auxiliary_graph`): for every `v ∈ V`, `count[v]` is the number
of U-vertices `u` with `nhbor[u] = v`; moreover every `nhbor` entry is
`blank` or a V-vertex. -/
def count_nhbor_ok (s : HMState) : Prop :=
  (∀ v ∈ eachV s.n,
    COUNT s v = (((eachU s.n).filter (fun k => decide (NHBOR s k = v))).length : Int)) ∧
  (∀ k ∈ eachU s.n, NHBOR s k = blank ∨ NHBOR s k ∈ eachV s.n)

lemma construct_reset_fold_spec :
    ∀ (l : List Int), l.Nodup → ∀ t : HMState,
      (∀ i ∈ l,
        LABEL (l.foldl (fun t i => setCount (setLabel (setExposed t i blank) i blank) i 0) t) i
          = blank ∧
        COUNT (l.foldl (fun t i => setCount (setLabel (setExposed t i blank) i blank) i 0) t) i
          = 0) ∧
      (∀ i, i ∉ l →
        LABEL (l.foldl (fun t i => setCount (setLabel (setExposed t i blank) i blank) i 0) t) i
          = LABEL t i ∧
        COUNT (l.foldl (fun t i => setCount (setLabel (setExposed t i blank) i blank) i 0) t) i
          = COUNT t i) := by
  intro l
  induction l with
  | nil => intro _ t; exact ⟨fun i hi => absurd hi (List.not_mem_nil i), fun i _ => ⟨rfl, rfl⟩⟩
  | cons a l ih =>
    intro hnd t
    have hnd2 := List.nodup_cons.mp hnd
    rw [List.foldl_cons]
    constructor
    · intro i hi
      rcases List.mem_cons.mp hi with rfl | hi2
      · obtain ⟨hL, hC⟩ := (ih hnd2.2 _).2 i hnd2.1
        rw [hL, hC]
        constructor <;> simp
      · exact (ih hnd2.2 _).1 i hi2
    · intro i hi
      have hia : i ≠ a := fun he => hi (he ▸ List.mem_cons_self a l)
      have hil : i ∉ l := fun he => hi (List.mem_cons_of_mem a he)
      obtain ⟨hL, hC⟩ := (ih hnd2.2 _).2 i hil
      rw [hL, hC]
      constructor <;> simp [hia]

lemma construct_slack_fold_spec (n0 : Int) :
    ∀ (l : List Int), (∀ x ∈ l, ∀ y ∈ l, x - n0 = y - n0 → x = y) → l.Nodup →
      ∀ t : HMState, t.n = n0 →
      (∀ k ∈ l,
        SLACK (l.foldl (fun t j => setNhbor (setSlack t j INT_MAX) j blank) t) k = INT_MAX ∧
        NHBOR (l.foldl (fun t j => setNhbor (setSlack t j INT_MAX) j blank) t) k = blank) ∧
      (∀ k, (∀ x ∈ l, k - n0 ≠ x - n0) →
        SLACK (l.foldl (fun t j => setNhbor (setSlack t j INT_MAX) j blank) t) k = SLACK t k ∧
        NHBOR (l.foldl (fun t j => setNhbor (setSlack t j INT_MAX) j blank) t) k = NHBOR t k) := by
  intro l
  induction l with
  | nil => intro _ _ t _; exact ⟨fun k hk => absurd hk (List.not_mem_nil k), fun k _ => ⟨rfl, rfl⟩⟩
  | cons a l ih =>
    intro hinj hnd t htn
    have hnd2 := List.nodup_cons.mp hnd
    have hinj2 : ∀ x ∈ l, ∀ y ∈ l, x - n0 = y - n0 → x = y := fun x hx y hy =>
      hinj x (List.mem_cons_of_mem a hx) y (List.mem_cons_of_mem a hy)
    have havoid : ∀ x ∈ l, a - n0 ≠ x - n0 := by
      intro x hx he
      exact hnd2.1 ((hinj a (List.mem_cons_self a l) x (List.mem_cons_of_mem a hx) he) ▸ hx)
    rw [List.foldl_cons]
    have htn2 : (setNhbor (setSlack t a INT_MAX) a blank).n = n0 := htn
    constructor
    · intro k hk
      rcases List.mem_cons.mp hk with rfl | hk2
      · obtain ⟨hS, hN⟩ := (ih hinj2 hnd2.2 _ htn2).2 k havoid
        rw [hS, hN]
        constructor <;> simp [htn]
      · exact (ih hinj2 hnd2.2 _ htn2).1 k hk2
    · intro k hka
      have hkl : ∀ x ∈ l, k - n0 ≠ x - n0 := fun x hx => hka x (List.mem_cons_of_mem a hx)
      have hknea : k - t.n ≠ a - t.n := by rw [htn]; exact hka a (List.mem_cons_self a l)
      obtain ⟨hS, hN⟩ := (ih hinj2 hnd2.2 _ htn2).2 k hkl
      rw [hS, hN]
      constructor <;> simp [hknea]

lemma hm_construct_spec (s : HMState) :
    (∀ i ∈ eachV s.n,
      LABEL (hm_construct_auxiliary_graph s) i = blank ∧
      COUNT (hm_construct_auxiliary_graph s) i = 0) ∧
    (∀ k ∈ eachU s.n,
      SLACK (hm_construct_auxiliary_graph s) k = INT_MAX ∧
      NHBOR (hm_construct_auxiliary_graph s) k = blank) := by
  unfold hm_construct_auxiliary_graph
  set t1 := (eachV s.n).foldl
    (fun t i => setCount (setLabel (setExposed t i blank) i blank) i 0)
    { s with a := [] } with ht1
  set t2 := (eachU s.n).foldl (fun t j => setNhbor (setSlack t j INT_MAX) j blank) t1 with ht2
  have hF1 : ∃ cnt lb ex, t1 = { s with a := [], count := cnt, label := lb, exposed := ex } := by
    rw [ht1]
    refine foldl_hmstate_pres
      (fun t => ∃ cnt lb ex, t = { s with a := [], count := cnt, label := lb, exposed := ex })
      _ _ _ ⟨s.count, s.label, s.exposed, rfl⟩ ?_
    intro t i _ ht
    obtain ⟨cnt, lb, ex, rfl⟩ := ht
    exact ⟨_, _, _, rfl⟩
  obtain ⟨cnt1, lb1, ex1, hF1⟩ := hF1
  have ht1n : t1.n = s.n := by rw [hF1]
  have hF2 : ∃ sl nh, t2 = { t1 with slack := sl, nhbor := nh } := by
    rw [ht2]
    refine foldl_hmstate_pres (fun t => ∃ sl nh, t = { t1 with slack := sl, nhbor := nh })
      _ _ _ ⟨t1.slack, t1.nhbor, rfl⟩ ?_
    intro t j _ ht
    obtain ⟨sl, nh, rfl⟩ := ht
    exact ⟨_, _, rfl⟩
  obtain ⟨sl2, nh2, hF2⟩ := hF2
  have hframe : ∃ e ar,
      (eachV s.n).foldl
        (fun t i =>
          (eachU s.n).foldl
            (fun u j =>
              if ALPHA u i + BETA u j = Cmat u i j then
                if MATE u j = blank then setExposed u i j
                else if i ≠ MATE u j then add_arc u i (MATE u j) else u
              else u)
            t)
        t2 = { t2 with exposed := e, a := ar } := by
    refine foldl_hmstate_pres (fun t => ∃ e ar, t = { t2 with exposed := e, a := ar }) _ _ _
      ⟨t2.exposed, t2.a, rfl⟩ ?_
    intro t i _ ht
    refine foldl_hmstate_pres (fun t => ∃ e ar, t = { t2 with exposed := e, a := ar }) _ _ _
      ht ?_
    intro u j _ hu
    obtain ⟨e, ar, rfl⟩ := hu
    split
    · split
      · exact ⟨_, _, rfl⟩
      · split
        · exact ⟨_, _, rfl⟩
        · exact ⟨_, _, rfl⟩
    · exact ⟨_, _, rfl⟩
  obtain ⟨e3, a3, h3⟩ := hframe
  rw [h3]
  have hreset := construct_reset_fold_spec (eachV s.n) (nodup_eachV s.n) { s with a := [] }
  have hslack := construct_slack_fold_spec s.n (eachU s.n) (eachU_offset_inj s.n)
    (nodup_eachU s.n) t1 ht1n
  constructor
  · intro i hi
    obtain ⟨hL, hC⟩ := hreset.1 i hi
    rw [← ht1] at hL hC
    have hL2 : LABEL t2 i = blank := by rw [hF2]; exact hL
    have hC2 : COUNT t2 i = 0 := by rw [hF2]; exact hC
    exact ⟨hL2, hC2⟩
  · intro k hk
    obtain ⟨hS, hN⟩ := hslack.1 k hk
    rw [← ht2] at hS hN
    exact ⟨hS, hN⟩

lemma length_filter_setNhbor (n0 : Int) :
    ∀ (l : List Int), (∀ x ∈ l, ∀ y ∈ l, x - n0 = y - n0 → x = y) → l.Nodup →
      ∀ (t : HMState), t.n = n0 → ∀ (k : Int), k ∈ l → ∀ (z v : Int),
      ((l.filter (fun x => decide (NHBOR (setNhbor t k z) x = v))).length : Int) =
        ((l.filter (fun x => decide (NHBOR t x = v))).length : Int)
          - (if NHBOR t k = v then 1 else 0) + (if z = v then 1 else 0) := by
  intro l
  induction l with
  | nil => intro _ _ t _ k hk; exact absurd hk (List.not_mem_nil k)
  | cons a l ih =>
    intro hinj hnd t htn k hk z v
    have hnd2 := List.nodup_cons.mp hnd
    have hinj2 : ∀ x ∈ l, ∀ y ∈ l, x - n0 = y - n0 → x = y := fun x hx y hy =>
      hinj x (List.mem_cons_of_mem a hx) y (List.mem_cons_of_mem a hy)
    rcases List.mem_cons.mp hk with rfl | hk2
    · -- k is the head
      have havoid : ∀ x ∈ l, x - n0 ≠ k - n0 := by
        intro x hx he
        exact hnd2.1 ((hinj x (List.mem_cons_of_mem k hx) k (List.mem_cons_self k l) he) ▸ hx)
      have hhead : NHBOR (setNhbor t k z) k = z := by
        simp [htn]
      have htail : l.filter (fun x => decide (NHBOR (setNhbor t k z) x = v)) =
          l.filter (fun x => decide (NHBOR t x = v)) := by
        refine List.filter_congr ?_
        intro x hx
        have : NHBOR (setNhbor t k z) x = NHBOR t x := by
          simp only [NHBOR_setNhbor]
          rw [if_neg (by rw [htn]; exact havoid x hx)]
        rw [this]
      rw [List.filter_cons, List.filter_cons, hhead]
      by_cases hz : z = v
      · rw [if_pos (by simp [hz]), htail]
        by_cases hg : NHBOR t k = v
        · rw [if_pos (by simp [hg])]
          simp only [List.length_cons, hz, hg, if_pos rfl]
          push_cast
          omega
        · rw [if_neg (by simpa using hg)]
          simp only [List.length_cons, if_pos hz, if_neg hg]
          push_cast
          omega
      · rw [if_neg (by simpa using hz), htail]
        by_cases hg : NHBOR t k = v
        · rw [if_pos (by simp [hg])]
          simp only [List.length_cons, if_pos hg, if_neg hz]
          push_cast
          omega
        · rw [if_neg (by simpa using hg)]
          simp only [if_neg hg, if_neg hz]
          push_cast
          omega
    · -- k is in the tail
      have hane : a - t.n ≠ k - t.n := by
        rw [htn]
        intro he
        exact hnd2.1 ((hinj a (List.mem_cons_self a l) k (List.mem_cons_of_mem a hk2) he) ▸ hk2)
      have hhead : NHBOR (setNhbor t k z) a = NHBOR t a := by
        simp only [NHBOR_setNhbor]
        rw [if_neg hane]
      rw [List.filter_cons, List.filter_cons, hhead]
      have hrec := ih hinj2 hnd2.2 t htn k hk2 z v
      by_cases ha : NHBOR t a = v
      · rw [if_pos (by simp [ha]), if_pos (by simp [ha])]
        simp only [List.length_cons]
        push_cast
        push_cast at hrec
        omega
      · rw [if_neg (by simpa using ha), if_neg (by simpa using ha)]
        exact hrec

lemma hm_update_slack_count_ok (s : HMState) (z : Int) (hz : z ∈ eachV s.n)
    (hok : count_nhbor_ok s) : count_nhbor_ok (hm_update_slack s z) := by
  unfold hm_update_slack
  have hmain := foldl_hmstate_pres (fun t => count_nhbor_ok t ∧ t.n = s.n)
    (fun t k =>
      if 0 ≤ Cmat t z k - ALPHA t z - BETA t k ∧ Cmat t z k - ALPHA t z - BETA t k < SLACK t k
      then
        setNhbor
          (setCount
            (if NHBOR (setSlack t k (Cmat t z k - ALPHA t z - BETA t k)) k ≠ blank then
              setCount (setSlack t k (Cmat t z k - ALPHA t z - BETA t k))
                (NHBOR (setSlack t k (Cmat t z k - ALPHA t z - BETA t k)) k)
                (COUNT (setSlack t k (Cmat t z k - ALPHA t z - BETA t k))
                  (NHBOR (setSlack t k (Cmat t z k - ALPHA t z - BETA t k)) k) - 1)
            else setSlack t k (Cmat t z k - ALPHA t z - BETA t k)) z
            (COUNT
              (if NHBOR (setSlack t k (Cmat t z k - ALPHA t z - BETA t k)) k ≠ blank then
                setCount (setSlack t k (Cmat t z k - ALPHA t z - BETA t k))
                  (NHBOR (setSlack t k (Cmat t z k - ALPHA t z - BETA t k)) k)
                  (COUNT (setSlack t k (Cmat t z k - ALPHA t z - BETA t k))
                    (NHBOR (setSlack t k (Cmat t z k - ALPHA t z - BETA t k)) k) - 1)
              else setSlack t k (Cmat t z k - ALPHA t z - BETA t k)) z + 1)) k z
      else t)
    (eachU s.n) s ⟨hok, rfl⟩ ?_
  · exact hmain.1
  · intro t k hkmem ht
    obtain ⟨⟨hcnt, hrange⟩, htn⟩ := ht
    dsimp only
    split
    · set w := NHBOR (setSlack t k (Cmat t z k - ALPHA t z - BETA t k)) k with hw
      have hwt : w = NHBOR t k := by rw [hw]; simp
      set t1 := setSlack t k (Cmat t z k - ALPHA t z - BETA t k) with ht1
      set t2 := if w ≠ blank then setCount t1 w (COUNT t1 w - 1) else t1 with ht2
      set t4 := setNhbor (setCount t2 z (COUNT t2 z + 1)) k z with ht4
      have ht2n : t2.n = t.n := by
        rw [ht2]
        split <;> rfl
      have ht4n : t4.n = t.n := by rw [ht4]; exact ht2n
      have hC1 : ∀ u : Int, COUNT t1 u = COUNT t u := by
        intro u
        rw [ht1]
        simp
      have hC2 : ∀ u : Int,
          COUNT t2 u = COUNT t u - (if NHBOR t k = u ∧ NHBOR t k ≠ blank then 1 else 0) := by
        intro u
        rw [ht2]
        by_cases hb : w ≠ blank
        · rw [if_pos hb]
          have hb2 : NHBOR t k ≠ blank := hwt ▸ hb
          simp only [COUNT_setCount]
          by_cases hu : u = w
          · rw [if_pos hu, hC1 w, if_pos ⟨(hwt ▸ hu).symm, hb2⟩, hu, hwt]
          · rw [if_neg hu, hC1 u, if_neg (fun hc => hu (hwt ▸ hc.1.symm))]
            omega
        · rw [if_neg hb]
          have hb2 : NHBOR t k = blank := hwt ▸ (not_not.mp (fun hc => hb hc))
          rw [hC1 u, if_neg (fun hc => hc.2 hb2)]
          omega
      have hC4 : ∀ u : Int, COUNT t4 u =
          COUNT t u - (if NHBOR t k = u ∧ NHBOR t k ≠ blank then 1 else 0)
            + (if u = z then 1 else 0) := by
        intro u
        rw [ht4]
        simp only [COUNT_setNhbor, COUNT_setCount]
        by_cases hu : u = z
        · rw [if_pos hu, if_pos hu, hu, hC2 z]
        · rw [if_neg hu, if_neg hu, hC2 u]
          omega
      have hN2 : ∀ x : Int, NHBOR t2 x = NHBOR t x := by
        intro x
        rw [ht2]
        split
        · rw [ht1]
          simp
        · rw [ht1]
          simp
      have hN4 : ∀ x : Int, NHBOR t4 x = if x - t.n = k - t.n then z else NHBOR t x := by
        intro x
        rw [ht4]
        simp only [NHBOR_setNhbor, NHBOR_setCount, setCount_n]
        rw [ht2n, hN2 x]
      refine ⟨⟨?_, ?_⟩, by rw [ht4n, htn]⟩
      · intro v hv
        have hv2 : v ∈ eachV s.n := by rw [ht4n, htn] at hv; exact hv
        have hlem := length_filter_setNhbor s.n (eachU s.n) (eachU_offset_inj s.n)
          (nodup_eachU s.n) (setCount t2 z (COUNT t2 z + 1))
          (by simp only [setCount_n]; rw [ht2n, htn])
          k hkmem z v
        have hfc1 : (eachU t4.n).filter (fun x => decide (NHBOR t4 x = v)) =
            (eachU s.n).filter
              (fun x => decide (NHBOR (setNhbor (setCount t2 z (COUNT t2 z + 1)) k z) x = v)) := by
          rw [ht4n, htn]
        have hfc2 : (eachU s.n).filter
              (fun x => decide (NHBOR (setCount t2 z (COUNT t2 z + 1)) x = v)) =
            (eachU s.n).filter (fun x => decide (NHBOR t x = v)) := by
          refine List.filter_congr ?_
          intro x _
          have hpt : NHBOR (setCount t2 z (COUNT t2 z + 1)) x = NHBOR t x := by
            simp only [NHBOR_setCount]
            exact hN2 x
          rw [hpt]
        have hNk : NHBOR (setCount t2 z (COUNT t2 z + 1)) k = NHBOR t k := by
          simp only [NHBOR_setCount]
          exact hN2 k
        have hv3 : v ∈ eachV t.n := by rw [htn]; exact hv2
        have hcntv := hcnt v hv3
        rw [htn] at hcntv
        rw [hC4 v, hcntv, hfc1, hlem, hfc2, hNk]
        have hvpos : 0 ≤ v := (mem_eachV.mp hv2).1
        have hvnb : v ≠ blank := by unfold blank; omega
        by_cases hkv : NHBOR t k = v
        · have hknb : NHBOR t k ≠ blank := by rw [hkv]; exact hvnb
          rw [if_pos ⟨hkv, hknb⟩, if_pos hkv]
          by_cases hvz : v = z
          · rw [if_pos hvz, if_pos hvz.symm]
          · rw [if_neg hvz, if_neg (fun hc => hvz hc.symm)]
        · rw [if_neg (fun hc => hkv hc.1), if_neg hkv]
          by_cases hvz : v = z
          · rw [if_pos hvz, if_pos hvz.symm]
          · rw [if_neg hvz, if_neg (fun hc => hvz hc.symm)]
      · intro x hx
        rw [ht4n, htn] at hx
        rw [hN4 x]
        by_cases hxk : x - t.n = k - t.n
        · rw [if_pos hxk]
          right
          rw [ht4n, htn]
          exact hz
        · rw [if_neg hxk]
          have hx2 : x ∈ eachU t.n := by rw [htn]; exact hx
          have hrx := hrange x hx2
          rw [ht4n]
          exact hrx
    · exact ⟨⟨hcnt, hrange⟩, htn⟩

lemma hm_construct_count_ok (s : HMState) :
    count_nhbor_ok (hm_construct_auxiliary_graph s) := by
  obtain ⟨ar, e, l, cnt, sl, nh, hcon⟩ := hm_construct_frame s
  have hn : (hm_construct_auxiliary_graph s).n = s.n := by rw [hcon]
  obtain ⟨hreset, hslack⟩ := hm_construct_spec s
  constructor
  · intro v hv
    rw [hn] at hv
    have hvpos : 0 ≤ v := (mem_eachV.mp hv).1
    have hfe : (eachU (hm_construct_auxiliary_graph s).n).filter
        (fun k => decide (NHBOR (hm_construct_auxiliary_graph s) k = v)) = [] := by
      rw [hn]
      refine List.filter_eq_nil_iff.mpr ?_
      intro k hk
      rw [decide_eq_true_iff]
      rw [(hslack k hk).2]
      unfold blank
      omega
    rw [hfe, (hreset v hv).2]
    rfl
  · intro k hk
    rw [hn] at hk
    left
    exact (hslack k hk).2

/-- Claim C8: throughout every stage, `count[v]` equals the number of
U-vertices `u` with `nhbor[u] = v` (and every `nhbor` entry is `blank` or a
V-vertex): `hm_construct_auxiliary_graph` establishes the invariant (all
counts 0, all `nhbor` blank), and every slack update `hm_update_slack`
preserves it by decrementing the count of the previous `nhbor[u]` (when not
blank) and incrementing the count of the new tightest neighbor `z` before
reassigning `nhbor[u] := z`. -/
theorem count_nhbor_invariant :
    (∀ s : HMState, count_nhbor_ok (hm_construct_auxiliary_graph s)) ∧
    (∀ (s : HMState) (z : Int), z ∈ eachV s.n → count_nhbor_ok s →
      count_nhbor_ok (hm_update_slack s z)) :=
  ⟨hm_construct_count_ok, hm_update_slack_count_ok⟩

/-- A concrete 1×1 state satisfying the count/nhbor invariant. -/
def c8_state : HMState :=
  { mate := fun _ => -1, c := fun _ => 5, n := 1, q := [], a := [],
    alpha := fun _ => 0, beta := fun _ => 0, slack := fun _ => 9,
    nhbor := fun _ => -1, count := fun _ => 0, exposed := fun _ => -1,
    label := fun _ => -1 }

/-- Witness for C8: the invariant holds at `c8_state` and is preserved by a
slack update from vertex 0 (which becomes the tightest neighbor of the only
U-vertex, with its count incremented to 1). -/
theorem count_nhbor_invariant_witness :
    ((0 : Int) ∈ eachV c8_state.n ∧ count_nhbor_ok c8_state) ∧
    count_nhbor_ok (hm_update_slack c8_state 0) :=
  ⟨⟨by decide, by unfold count_nhbor_ok; decide⟩,
    count_nhbor_invariant.2 c8_state 0 (by decide) (by unfold count_nhbor_ok; decide)⟩

/-! ### Claim C3: dual feasibility between stages -/

/-- Dual feasibility on the (doubled) cost scale:
`alpha[v] + beta[u] ≤ C[v][u]` for all `v ∈ V`, `u ∈ U`. -/
def Feasible (s : HMState) : Prop :=
  ∀ i ∈ eachV s.n, ∀ j ∈ eachU s.n, ALPHA s i + BETA s j ≤ Cmat s i j

/-- All slacks are non-negative. -/
def SlackNonneg (s : HMState) : Prop := ∀ j ∈ eachU s.n, 0 ≤ SLACK s j

/-- For every "active" V-vertex (labeled, or with a positive tightest-
neighbor count), every slack lower-bounds that vertex's reduced cost. -/
def SlackDominates (s : HMState) : Prop :=
  ∀ i ∈ eachV s.n, (LABEL s i ≠ blank ∨ 0 < COUNT s i) →
    ∀ j ∈ eachU s.n, SLACK s j ≤ Cmat s i j - ALPHA s i - BETA s j

/-- The working invariant inside one stage. -/
def StageInv (s : HMState) : Prop := Feasible s ∧ SlackNonneg s ∧ SlackDominates s

lemma init_beta_min_fold (j : Int) :
    ∀ (l : List Int) (t : HMState),
      (∀ i ∈ l,
        BETA ((l.foldl (fun u i => if Cmat u i j < BETA u j then setBeta u j (Cmat u i j) else u) t)) j
          ≤ Cmat t i j) ∧
      BETA ((l.foldl (fun u i => if Cmat u i j < BETA u j then setBeta u j (Cmat u i j) else u) t)) j
        ≤ BETA t j ∧
      (∃ be, (l.foldl (fun u i => if Cmat u i j < BETA u j then setBeta u j (Cmat u i j) else u) t)
        = { t with beta := be }) := by
  intro l
  induction l with
  | nil => intro t; exact ⟨fun i hi => absurd hi (List.not_mem_nil i), le_refl _, t.beta, rfl⟩
  | cons a l ih =>
    intro t
    rw [List.foldl_cons]
    by_cases hc : Cmat t a j < BETA t j
    · rw [if_pos hc]
      obtain ⟨hall, hmono, hframe⟩ := ih (setBeta t j (Cmat t a j))
      have hbb : BETA (setBeta t j (Cmat t a j)) j = Cmat t a j := by simp
      refine ⟨?_, ?_, ?_⟩
      · intro i hi
        rcases List.mem_cons.mp hi with rfl | hi2
        · exact hmono.trans (le_of_eq hbb)
        · have := hall i hi2
          rwa [show Cmat (setBeta t j (Cmat t a j)) i j = Cmat t i j from rfl] at this
      · exact (hmono.trans (le_of_eq hbb)).trans (le_of_lt hc)
      · obtain ⟨be, hbe⟩ := hframe
        exact ⟨_, by rw [hbe]; rfl⟩
    · rw [if_neg hc]
      obtain ⟨hall, hmono, hframe⟩ := ih t
      refine ⟨?_, hmono, hframe⟩
      intro i hi
      rcases List.mem_cons.mp hi with rfl | hi2
      · exact hmono.trans (by omega)
      · exact hall i hi2

lemma init_alpha_fold_spec :
    ∀ (l : List Int) (t : HMState),
      (∀ i ∈ l,
        ALPHA (l.foldl (fun t i => setAlpha (setMate t i blank) i 0) t) i = 0) ∧
      (∃ m al, (l.foldl (fun t i => setAlpha (setMate t i blank) i 0) t)
        = { t with mate := m, alpha := al }) ∧
      (∀ i, i ∉ l →
        ALPHA (l.foldl (fun t i => setAlpha (setMate t i blank) i 0) t) i = ALPHA t i) := by
  intro l
  induction l with
  | nil =>
    intro t
    exact ⟨fun i hi => absurd hi (List.not_mem_nil i), ⟨t.mate, t.alpha, rfl⟩, fun i _ => rfl⟩
  | cons a l ih =>
    intro t
    rw [List.foldl_cons]
    obtain ⟨hall, hframe, hout⟩ := ih (setAlpha (setMate t a blank) a 0)
    refine ⟨?_, ?_, ?_⟩
    · intro i hi
      rcases List.mem_cons.mp hi with rfl | hi2
      · by_cases hil : i ∈ l
        · exact hall i hil
        · rw [hout i hil]
          simp
      · exact hall i hi2
    · obtain ⟨m, al, hbe⟩ := hframe
      exact ⟨_, _, by rw [hbe]; rfl⟩
    · intro i hi
      have hia : i ≠ a := fun he => hi (he ▸ List.mem_cons_self a l)
      rw [hout i (fun he => hi (List.mem_cons_of_mem a he))]
      simp [hia]

lemma init_beta_fold_other (j : Int) :
    ∀ (l : List Int) (t : HMState) (k : Int), k - t.n ≠ j - t.n →
      BETA (l.foldl (fun u i => if Cmat u i j < BETA u j then setBeta u j (Cmat u i j) else u) t) k
        = BETA t k := by
  intro l
  induction l with
  | nil => intro t k _; rfl
  | cons a l ih =>
    intro t k hk
    rw [List.foldl_cons]
    by_cases hc : Cmat t a j < BETA t j
    · rw [if_pos hc, ih (setBeta t j (Cmat t a j)) k hk]
      simp [hk]
    · rw [if_neg hc, ih t k hk]

lemma init_outer_frame (lV : List Int) :
    ∀ (l : List Int) (t : HMState),
      ∃ m be,
        l.foldl
          (fun t j =>
            lV.foldl (fun u i => if Cmat u i j < BETA u j then setBeta u j (Cmat u i j) else u)
              (setBeta (setMate t j blank) j INT_MAX)) t
          = { t with mate := m, beta := be } := by
  intro l t
  refine foldl_hmstate_pres (fun u => ∃ m be, u = { t with mate := m, beta := be }) _ _ t
    ⟨t.mate, t.beta, rfl⟩ ?_
  intro u j _ hu
  obtain ⟨m, be, rfl⟩ := hu
  obtain ⟨be2, h2⟩ :=
    (init_beta_min_fold j lV
      (setBeta (setMate { t with mate := m, beta := be } j blank) j INT_MAX)).2.2
  exact ⟨_, _, by rw [h2]; rfl⟩

lemma init_outer_other (n0 : Int) (lV : List Int) :
    ∀ (l : List Int) (t : HMState), t.n = n0 →
      ∀ k, (∀ x ∈ l, k - n0 ≠ x - n0) →
      BETA (l.foldl
        (fun t j =>
          lV.foldl (fun u i => if Cmat u i j < BETA u j then setBeta u j (Cmat u i j) else u)
            (setBeta (setMate t j blank) j INT_MAX)) t) k = BETA t k := by
  intro l
  induction l with
  | nil => intro t _ k _; rfl
  | cons a l ih =>
    intro t htn k hk
    rw [List.foldl_cons]
    have hka : k - t.n ≠ a - t.n := by rw [htn]; exact hk a (List.mem_cons_self a l)
    obtain ⟨be1, hbe1⟩ :=
      (init_beta_min_fold a lV (setBeta (setMate t a blank) a INT_MAX)).2.2
    have ht1n :
        (lV.foldl (fun u i => if Cmat u i a < BETA u a then setBeta u a (Cmat u i a) else u)
          (setBeta (setMate t a blank) a INT_MAX)).n = n0 := by
      rw [hbe1]; exact htn
    rw [ih _ ht1n k (fun x hx => hk x (List.mem_cons_of_mem a hx)),
      init_beta_fold_other a lV (setBeta (setMate t a blank) a INT_MAX) k hka]
    simp [hka]

lemma init_outer_beta_le (n0 : Int) (lV : List Int) :
    ∀ (l : List Int), (∀ x ∈ l, ∀ y ∈ l, x - n0 = y - n0 → x = y) → l.Nodup →
      ∀ t : HMState, t.n = n0 →
      ∀ j ∈ l, ∀ i ∈ lV,
        BETA (l.foldl
          (fun t j =>
            lV.foldl (fun u i => if Cmat u i j < BETA u j then setBeta u j (Cmat u i j) else u)
              (setBeta (setMate t j blank) j INT_MAX)) t) j ≤ t.c (i * n0 + (j - n0)) := by
  intro l
  induction l with
  | nil => intro _ _ t _ j hj; exact absurd hj (List.not_mem_nil j)
  | cons a l ih =>
    intro hinj hnd t htn j hj i hi
    have hnd2 := List.nodup_cons.mp hnd
    have hinj2 : ∀ x ∈ l, ∀ y ∈ l, x - n0 = y - n0 → x = y := fun x hx y hy =>
      hinj x (List.mem_cons_of_mem a hx) y (List.mem_cons_of_mem a hy)
    have havoid : ∀ x ∈ l, a - n0 ≠ x - n0 := by
      intro x hx he
      exact hnd2.1 ((hinj a (List.mem_cons_self a l) x (List.mem_cons_of_mem a hx) he) ▸ hx)
    rw [List.foldl_cons]
    obtain ⟨be1, hbe1⟩ :=
      (init_beta_min_fold a lV (setBeta (setMate t a blank) a INT_MAX)).2.2
    have ht1n :
        (lV.foldl (fun u i => if Cmat u i a < BETA u a then setBeta u a (Cmat u i a) else u)
          (setBeta (setMate t a blank) a INT_MAX)).n = n0 := by
      rw [hbe1]; exact htn
    have ht1c :
        (lV.foldl (fun u i => if Cmat u i a < BETA u a then setBeta u a (Cmat u i a) else u)
          (setBeta (setMate t a blank) a INT_MAX)).c = t.c := by
      rw [hbe1]
      rfl
    rcases List.mem_cons.mp hj with rfl | hj2
    · rw [init_outer_other n0 lV l _ ht1n j havoid]
      have hle :=
        (init_beta_min_fold j lV (setBeta (setMate t j blank) j INT_MAX)).1 i hi
      have hC : Cmat (setBeta (setMate t j blank) j INT_MAX) i j = t.c (i * n0 + (j - n0)) := by
        unfold Cmat
        rw [setBeta_c, setMate_c, setBeta_n, setMate_n, htn]
      rwa [hC] at hle
    · have := ih hinj2 hnd2.2 _ ht1n j hj2 i hi
      rwa [ht1c] at this

lemma hm_initialize_spec (s : HMState) :
    (∀ i ∈ eachV s.n, ALPHA ( hm_initialize s) i = 0) ∧
    (∀ j ∈ eachU s.n, ∀ i ∈ eachV s.n,
      BETA ( hm_initialize s) j ≤ s.c (i * s.n + (j - s.n))) := by
  unfold hm_initialize
  obtain ⟨ha0, hfr0, _⟩ :=
    init_alpha_fold_spec (eachV s.n) s
  obtain ⟨m0, al0, hfr0e⟩ := hfr0
  have ht0n : ((eachV s.n).foldl (fun t i => setAlpha (setMate t i blank) i 0) s).n = s.n := by
    rw [hfr0e]
  have ht0c : ((eachV s.n).foldl (fun t i => setAlpha (setMate t i blank) i 0) s).c = s.c := by
    rw [hfr0e]
  obtain ⟨m1, be1, hfr1⟩ :=
    init_outer_frame (eachV s.n) (eachU s.n)
      ((eachV s.n).foldl (fun t i => setAlpha (setMate t i blank) i 0) s)
  constructor
  · intro i hi
    rw [hfr1]
    exact ha0 i hi
  · intro j hj i hi
    have := init_outer_beta_le s.n (eachV s.n) (eachU s.n) (eachU_offset_inj s.n)
      (nodup_eachU s.n) _ ht0n j hj i hi
    rwa [ht0c] at this

lemma hm_initialize_feasible (s : HMState) : Feasible ( hm_initialize s) := by
  obtain ⟨m, al, be, hF⟩ := hm_initialize_frame s
  intro i hi j hj
  have hn : ( hm_initialize s).n = s.n := by rw [hF]
  rw [hn] at hi hj
  have hA := ( hm_initialize_spec s).1 i hi
  have hB := ( hm_initialize_spec s).2 j hj i hi
  have hC : Cmat ( hm_initialize s) i j = s.c (i * s.n + (j - s.n)) := by
    unfold Cmat
    rw [hF]
  rw [hA, hC]
  omega

lemma us_step_spec (z : Int) (t : HMState) (a : Int) :
    ∃ t1 : HMState,
      (if 0 ≤ Cmat t z a - ALPHA t z - BETA t a ∧ Cmat t z a - ALPHA t z - BETA t a < SLACK t a
       then
        setNhbor
          (setCount
            (if NHBOR (setSlack t a (Cmat t z a - ALPHA t z - BETA t a)) a ≠ blank then
              setCount (setSlack t a (Cmat t z a - ALPHA t z - BETA t a))
                (NHBOR (setSlack t a (Cmat t z a - ALPHA t z - BETA t a)) a)
                (COUNT (setSlack t a (Cmat t z a - ALPHA t z - BETA t a))
                  (NHBOR (setSlack t a (Cmat t z a - ALPHA t z - BETA t a)) a) - 1)
            else setSlack t a (Cmat t z a - ALPHA t z - BETA t a)) z
            (COUNT
              (if NHBOR (setSlack t a (Cmat t z a - ALPHA t z - BETA t a)) a ≠ blank then
                setCount (setSlack t a (Cmat t z a - ALPHA t z - BETA t a))
                  (NHBOR (setSlack t a (Cmat t z a - ALPHA t z - BETA t a)) a)
                  (COUNT (setSlack t a (Cmat t z a - ALPHA t z - BETA t a))
                    (NHBOR (setSlack t a (Cmat t z a - ALPHA t z - BETA t a)) a) - 1)
              else setSlack t a (Cmat t z a - ALPHA t z - BETA t a)) z + 1)) a z
       else t) = t1 ∧
      t1.n = t.n ∧ t1.alpha = t.alpha ∧ t1.beta = t.beta ∧ t1.c = t.c ∧
      t1.label = t.label ∧
      (∀ x, SLACK t1 x =
        if (0 ≤ Cmat t z a - ALPHA t z - BETA t a ∧
            Cmat t z a - ALPHA t z - BETA t a < SLACK t a) ∧ x - t.n = a - t.n
        then Cmat t z a - ALPHA t z - BETA t a else SLACK t x) ∧
      (∀ v, v ≠ z → COUNT t1 v ≤ COUNT t v) := by
  refine ⟨_, rfl, ?_, ?_, ?_, ?_, ?_, ?_, ?_⟩
  · split
    · split <;> rfl
    · rfl
  · split
    · split <;> rfl
    · rfl
  · split
    · split <;> rfl
    · rfl
  · split
    · split <;> rfl
    · rfl
  · split
    · split <;> rfl
    · rfl
  · intro x
    by_cases hc : 0 ≤ Cmat t z a - ALPHA t z - BETA t a ∧
        Cmat t z a - ALPHA t z - BETA t a < SLACK t a
    · rw [if_pos hc]
      simp only [SLACK_setNhbor, SLACK_setCount]
      split
      · simp only [SLACK_setCount, SLACK_setSlack]
        by_cases hx : x - t.n = a - t.n
        · rw [if_pos hx, if_pos ⟨hc, hx⟩]
        · rw [if_neg hx, if_neg (fun h => hx h.2)]
      · simp only [SLACK_setSlack]
        by_cases hx : x - t.n = a - t.n
        · rw [if_pos hx, if_pos ⟨hc, hx⟩]
        · rw [if_neg hx, if_neg (fun h => hx h.2)]
    · rw [if_neg hc, if_neg (fun h => hc h.1)]
  · intro v hv
    by_cases hc : 0 ≤ Cmat t z a - ALPHA t z - BETA t a ∧
        Cmat t z a - ALPHA t z - BETA t a < SLACK t a
    · rw [if_pos hc]
      simp only [COUNT_setNhbor, COUNT_setCount, COUNT_setSlack, NHBOR_setSlack]
      rw [if_neg hv]
      split
      · simp only [COUNT_setCount, COUNT_setSlack]
        by_cases hvw : v = NHBOR t a
        · rw [if_pos hvw, hvw]
          omega
        · rw [if_neg hvw]
      · simp only [COUNT_setSlack]
        exact le_refl _
    · rw [if_neg hc]

lemma us_fold_slack_spec (z : Int) (s0 : HMState) :
    ∀ (l : List Int), (∀ x ∈ l, ∀ y ∈ l, x - s0.n = y - s0.n → x = y) → l.Nodup →
      ∀ t : HMState, t.n = s0.n → t.alpha = s0.alpha → t.beta = s0.beta → t.c = s0.c →
      (∀ k ∈ l,
        SLACK (l.foldl
          (fun t k =>
            if 0 ≤ Cmat t z k - ALPHA t z - BETA t k ∧
                Cmat t z k - ALPHA t z - BETA t k < SLACK t k
            then
              setNhbor
                (setCount
                  (if NHBOR (setSlack t k (Cmat t z k - ALPHA t z - BETA t k)) k ≠ blank then
                    setCount (setSlack t k (Cmat t z k - ALPHA t z - BETA t k))
                      (NHBOR (setSlack t k (Cmat t z k - ALPHA t z - BETA t k)) k)
                      (COUNT (setSlack t k (Cmat t z k - ALPHA t z - BETA t k))
                        (NHBOR (setSlack t k (Cmat t z k - ALPHA t z - BETA t k)) k) - 1)
                  else setSlack t k (Cmat t z k - ALPHA t z - BETA t k)) z
                  (COUNT
                    (if NHBOR (setSlack t k (Cmat t z k - ALPHA t z - BETA t k)) k ≠ blank then
                      setCount (setSlack t k (Cmat t z k - ALPHA t z - BETA t k))
                        (NHBOR (setSlack t k (Cmat t z k - ALPHA t z - BETA t k)) k)
                        (COUNT (setSlack t k (Cmat t z k - ALPHA t z - BETA t k))
                          (NHBOR (setSlack t k (Cmat t z k - ALPHA t z - BETA t k)) k) - 1)
                    else setSlack t k (Cmat t z k - ALPHA t z - BETA t k)) z + 1)) k z
            else t) t) k =
          if 0 ≤ Cmat s0 z k - ALPHA s0 z - BETA s0 k ∧
              Cmat s0 z k - ALPHA s0 z - BETA s0 k < SLACK t k then
            Cmat s0 z k - ALPHA s0 z - BETA s0 k
          else SLACK t k) ∧
      (∀ k, (∀ x ∈ l, k - s0.n ≠ x - s0.n) →
        SLACK (l.foldl
          (fun t k =>
            if 0 ≤ Cmat t z k - ALPHA t z - BETA t k ∧
                Cmat t z k - ALPHA t z - BETA t k < SLACK t k
            then
              setNhbor
                (setCount
                  (if NHBOR (setSlack t k (Cmat t z k - ALPHA t z - BETA t k)) k ≠ blank then
                    setCount (setSlack t k (Cmat t z k - ALPHA t z - BETA t k))
                      (NHBOR (setSlack t k (Cmat t z k - ALPHA t z - BETA t k)) k)
                      (COUNT (setSlack t k (Cmat t z k - ALPHA t z - BETA t k))
                        (NHBOR (setSlack t k (Cmat t z k - ALPHA t z - BETA t k)) k) - 1)
                  else setSlack t k (Cmat t z k - ALPHA t z - BETA t k)) z
                  (COUNT
                    (if NHBOR (setSlack t k (Cmat t z k - ALPHA t z - BETA t k)) k ≠ blank then
                      setCount (setSlack t k (Cmat t z k - ALPHA t z - BETA t k))
                        (NHBOR (setSlack t k (Cmat t z k - ALPHA t z - BETA t k)) k)
                        (COUNT (setSlack t k (Cmat t z k - ALPHA t z - BETA t k))
                          (NHBOR (setSlack t k (Cmat t z k - ALPHA t z - BETA t k)) k) - 1)
                    else setSlack t k (Cmat t z k - ALPHA t z - BETA t k)) z + 1)) k z
            else t) t) k = SLACK t k) := by
  intro l
  induction l with
  | nil => intro _ _ t _ _ _ _; exact ⟨fun k hk => absurd hk (List.not_mem_nil k), fun k _ => rfl⟩
  | cons a l ih =>
    intro hinj hnd t htn hta htb htc
    have hnd2 := List.nodup_cons.mp hnd
    have hinj2 : ∀ x ∈ l, ∀ y ∈ l, x - s0.n = y - s0.n → x = y := fun x hx y hy =>
      hinj x (List.mem_cons_of_mem a hx) y (List.mem_cons_of_mem a hy)
    have havoid : ∀ x ∈ l, a - s0.n ≠ x - s0.n := by
      intro x hx he
      exact hnd2.1 ((hinj a (List.mem_cons_self a l) x (List.mem_cons_of_mem a hx) he) ▸ hx)
    have hCa : Cmat t z a = Cmat s0 z a := by unfold Cmat; rw [htc, htn]
    have hAa : ALPHA t z = ALPHA s0 z := by unfold ALPHA; rw [hta]
    have hBa : BETA t a = BETA s0 a := by unfold BETA; rw [htb, htn]
    obtain ⟨t1, heq, hn1, ha1, hb1, hc1, _, hsl1, _⟩ := us_step_spec z t a
    have ht1n : t1.n = s0.n := hn1.trans htn
    have ht1a : t1.alpha = s0.alpha := ha1.trans hta
    have ht1b : t1.beta = s0.beta := hb1.trans htb
    have ht1c : t1.c = s0.c := hc1.trans htc
    simp only [List.foldl_cons]
    rw [heq]
    constructor
    · intro k hk
      rcases List.mem_cons.mp hk with rfl | hk2
      · rw [(ih hinj2 hnd2.2 t1 ht1n ht1a ht1b ht1c).2 k havoid, hsl1 k, hCa, hAa, hBa]
        simp
      · have hka : k - s0.n ≠ a - s0.n := by
          intro he
          exact hnd2.1 ((hinj k hk a (List.mem_cons_self a l) he) ▸ hk2)
        have hka2 : k - t.n ≠ a - t.n := by rw [htn]; exact hka
        have hsk : SLACK t1 k = SLACK t k := by rw [hsl1 k, if_neg (fun h => hka2 h.2)]
        rw [(ih hinj2 hnd2.2 t1 ht1n ht1a ht1b ht1c).1 k hk2, hsk]
    · intro k hk
      have hka2 : k - t.n ≠ a - t.n := by rw [htn]; exact hk a (List.mem_cons_self a l)
      have hsk : SLACK t1 k = SLACK t k := by rw [hsl1 k, if_neg (fun h => hka2 h.2)]
      rw [(ih hinj2 hnd2.2 t1 ht1n ht1a ht1b ht1c).2 k
        (fun x hx => hk x (List.mem_cons_of_mem a hx)), hsk]

lemma us_fold_count_le (z : Int) :
    ∀ (l : List Int) (t : HMState) (v : Int), v ≠ z →
      COUNT (l.foldl
        (fun t k =>
          if 0 ≤ Cmat t z k - ALPHA t z - BETA t k ∧
              Cmat t z k - ALPHA t z - BETA t k < SLACK t k
          then
            setNhbor
              (setCount
                (if NHBOR (setSlack t k (Cmat t z k - ALPHA t z - BETA t k)) k ≠ blank then
                  setCount (setSlack t k (Cmat t z k - ALPHA t z - BETA t k))
                    (NHBOR (setSlack t k (Cmat t z k - ALPHA t z - BETA t k)) k)
                    (COUNT (setSlack t k (Cmat t z k - ALPHA t z - BETA t k))
                      (NHBOR (setSlack t k (Cmat t z k - ALPHA t z - BETA t k)) k) - 1)
                else setSlack t k (Cmat t z k - ALPHA t z - BETA t k)) z
                (COUNT
                  (if NHBOR (setSlack t k (Cmat t z k - ALPHA t z - BETA t k)) k ≠ blank then
                    setCount (setSlack t k (Cmat t z k - ALPHA t z - BETA t k))
                      (NHBOR (setSlack t k (Cmat t z k - ALPHA t z - BETA t k)) k)
                      (COUNT (setSlack t k (Cmat t z k - ALPHA t z - BETA t k))
                        (NHBOR (setSlack t k (Cmat t z k - ALPHA t z - BETA t k)) k) - 1)
                  else setSlack t k (Cmat t z k - ALPHA t z - BETA t k)) z + 1)) k z
          else t) t) v ≤ COUNT t v := by
  intro l
  induction l with
  | nil => intro t v _; exact le_refl _
  | cons a l ih =>
    intro t v hv
    obtain ⟨t1, heq, _, _, _, _, _, _, hcnt1⟩ := us_step_spec z t a
    simp only [List.foldl_cons]
    rw [heq]
    exact (ih t1 v hv).trans (hcnt1 v hv)

lemma hm_update_slack_slack_spec (s : HMState) (z : Int) :
    ∀ k ∈ eachU s.n,
      SLACK (hm_update_slack s z) k =
        if 0 ≤ Cmat s z k - ALPHA s z - BETA s k ∧ Cmat s z k - ALPHA s z - BETA s k < SLACK s k
        then Cmat s z k - ALPHA s z - BETA s k else SLACK s k := by
  intro k hk
  unfold hm_update_slack
  exact (us_fold_slack_spec z s (eachU s.n) (eachU_offset_inj s.n) (nodup_eachU s.n) s
    rfl rfl rfl rfl).1 k hk

lemma hm_update_slack_count_le (s : HMState) (z v : Int) (hv : v ≠ z) :
    COUNT (hm_update_slack s z) v ≤ COUNT s v := by
  unfold hm_update_slack
  exact us_fold_count_le z (eachU s.n) s v hv

lemma hm_update_slack_inv (s : HMState) (z : Int) (hF : Feasible s) (hS : SlackNonneg s)
    (hD : ∀ i ∈ eachV s.n, i ≠ z → (LABEL s i ≠ blank ∨ 0 < COUNT s i) →
      ∀ j ∈ eachU s.n, SLACK s j ≤ Cmat s i j - ALPHA s i - BETA s j) :
    StageInv (hm_update_slack s z) := by
  obtain ⟨sl, nh, cnt, hfr⟩ := hm_update_slack_frame s z
  have hn : (hm_update_slack s z).n = s.n := by rw [hfr]
  have hCm : ∀ i j, Cmat (hm_update_slack s z) i j = Cmat s i j := by
    intro i j
    unfold Cmat
    rw [hfr]
  have hA : ∀ i, ALPHA (hm_update_slack s z) i = ALPHA s i := by
    intro i
    unfold ALPHA
    rw [hfr]
  have hB : ∀ j, BETA (hm_update_slack s z) j = BETA s j := by
    intro j
    unfold BETA
    rw [hfr]
  have hL : ∀ i, LABEL (hm_update_slack s z) i = LABEL s i := by
    intro i
    unfold LABEL
    rw [hfr]
  refine ⟨?_, ?_, ?_⟩
  · intro i hi j hj
    rw [hn] at hi hj
    rw [hCm, hA, hB]
    exact hF i hi j hj
  · intro j hj
    rw [hn] at hj
    rw [hm_update_slack_slack_spec s z j hj]
    split
    · next h => exact h.1
    · exact hS j hj
  · intro i hi hact j hj
    rw [hn] at hi hj
    rw [hCm, hA, hB, hm_update_slack_slack_spec s z j hj]
    by_cases hiz : i = z
    · subst hiz
      have htmp0 : 0 ≤ Cmat s i j - ALPHA s i - BETA s j := by
        have := hF i hi j hj
        omega
      split
      · exact le_refl _
      · next h =>
        push_neg at h
        exact h htmp0
    · have hact2 : LABEL s i ≠ blank ∨ 0 < COUNT s i := by
        rcases hact with h | h
        · left
          rwa [hL] at h
        · right
          have := hm_update_slack_count_le s z i hiz
          omega
      have hbound := hD i hi hiz hact2 j hj
      split
      · next h =>
        have := h.2
        omega
      · exact hbound

lemma hm_update_slack_stageinv (s : HMState) (z : Int) (h : StageInv s) :
    StageInv (hm_update_slack s z) :=
  hm_update_slack_inv s z h.1 h.2.1 (fun i hi _ hact j hj => h.2.2 i hi hact j hj)

lemma feasible_hm_augment (s : HMState) (v : Int) (h : Feasible s) :
    Feasible (hm_augment s v) := by
  obtain ⟨m, e, he⟩ := hm_augment_frame s v
  rw [he]
  exact h

lemma stageinv_hm_augment (s : HMState) (v : Int) (h : StageInv s) :
    StageInv (hm_augment s v) := by
  obtain ⟨m, e, he⟩ := hm_augment_frame s v
  rw [he]
  exact h

lemma stageinv_setLabel_blank (s : HMState) (i : Int) (h : StageInv s) :
    StageInv (setLabel s i blank) := by
  obtain ⟨hF, hS, hD⟩ := h
  refine ⟨hF, hS, ?_⟩
  intro i2 hi2 hact j hj
  have hact2 : LABEL s i2 ≠ blank ∨ 0 < COUNT s i2 := by
    rcases hact with hl | hc
    · by_cases hii : i2 = i
      · exfalso
        apply hl
        rw [hii]
        simp
      · left
        rw [LABEL_setLabel, if_neg hii] at hl
        exact hl
    · right
      exact hc
  exact hD i2 hi2 hact2 j hj

lemma pre_search_go_inv :
    ∀ (l : List Int) (s : HMState), StageInv s →
      Feasible (pre_search_go s l).1 ∧
        ((pre_search_go s l).2 = true → StageInv (pre_search_go s l).1) := by
  intro l
  induction l with
  | nil => intro s h; exact ⟨h.1, fun _ => h⟩
  | cons i rest ih =>
    intro s h
    rw [pre_search_go]
    split
    · split
      · exact ⟨feasible_hm_augment s i h.1, fun hb => by simp at hb⟩
      · exact ih _ (hm_update_slack_stageinv _ i (stageinv_setLabel_blank (stack_push s i) i h))
    · exact ih s h

lemma hm_pre_search_inv (s : HMState) (h : StageInv s) :
    Feasible (hm_pre_search s).1 ∧
      ((hm_pre_search s).2 = true → StageInv (hm_pre_search s).1) := by
  unfold hm_pre_search
  exact pre_search_go_inv (eachV s.n) { s with q := [] } h

lemma search_arcs_inv :
    ∀ (arcs : List (Int × Int)) (s : HMState) (i : Int), StageInv s →
      Feasible (search_arcs s i arcs).1 ∧
        ((search_arcs s i arcs).2 = true → StageInv (search_arcs s i arcs).1) := by
  intro arcs
  induction arcs with
  | nil => intro s i h; exact ⟨h.1, fun _ => h⟩
  | cons ar rest ih =>
    intro s i h
    rw [search_arcs]
    split
    · split
      · split
        · exact ⟨feasible_hm_augment _ _ h.1, fun hb => by simp at hb⟩
        · refine ih _ i (hm_update_slack_inv _ ar.2 h.1 h.2.1 ?_)
          intro i2 hi2 hne hact j hj
          have hact2 : LABEL s i2 ≠ blank ∨ 0 < COUNT s i2 := by
            rcases hact with hl | hc
            · left
              have hl2 : LABEL (setLabel s ar.2 i) i2 ≠ blank := hl
              rw [LABEL_setLabel, if_neg hne] at hl2
              exact hl2
            · right
              exact hc
          exact h.2.2 i2 hi2 hact2 j hj
      · exact ih s i h
    · exact ih s i h

lemma search_go_inv (f : Nat) :
    ∀ s : HMState, StageInv s →
      Feasible (search_go f s).1 ∧ ((search_go f s).2 = true → StageInv (search_go f s).1) := by
  induction f with
  | zero => intro s h; exact ⟨h.1, fun _ => h⟩
  | succ f ih =>
    intro s h
    rw [search_go]
    rcases hq : s.q with _ | ⟨i, rest⟩
    · exact ⟨h.1, fun _ => h⟩
    · rcases har : search_arcs { s with q := rest } i s.a with ⟨s1, b1⟩
      have harc := search_arcs_inv s.a { s with q := rest } i h
      rw [har] at harc
      dsimp only at harc
      dsimp only
      rw [har]
      cases b1
      · exact ⟨harc.1, fun hb => by simp at hb⟩
      · exact ih s1 (harc.2 rfl)

lemma idiv_two_facts (x : Int) (hx : 0 ≤ x) : 0 ≤ idiv x 2 ∧ 2 * idiv x 2 ≤ x := by
  unfold idiv
  rw [Int.tdiv_eq_ediv hx (by decide)]
  constructor
  · exact Int.ediv_nonneg hx (by decide)
  · have h1 := Int.ediv_add_emod x 2
    have h2 := Int.emod_nonneg x (show (2 : Int) ≠ 0 by decide)
    omega

lemma modify_scan_true_slack (th : Int) (n0 : Int) :
    ∀ (js : List Int), (∀ x ∈ js, ∀ y ∈ js, x - n0 = y - n0 → x = y) → js.Nodup →
      ∀ s : HMState, s.n = n0 → (modify_scan s th js).2 = true →
      (∀ k ∈ js,
        SLACK (modify_scan s th js).1 k =
          if 0 < SLACK s k then SLACK s k - 2 * th else SLACK s k) ∧
      (∀ k, (∀ x ∈ js, k - n0 ≠ x - n0) → SLACK (modify_scan s th js).1 k = SLACK s k) := by
  intro js
  induction js with
  | nil => intro _ _ s _ _; exact ⟨fun k hk => absurd hk (List.not_mem_nil k), fun k _ => rfl⟩
  | cons j rest ih =>
    intro hinj hnd s htn hb
    have hnd2 := List.nodup_cons.mp hnd
    have hinj2 : ∀ x ∈ rest, ∀ y ∈ rest, x - n0 = y - n0 → x = y := fun x hx y hy =>
      hinj x (List.mem_cons_of_mem j hx) y (List.mem_cons_of_mem j hy)
    have havoid : ∀ x ∈ rest, j - n0 ≠ x - n0 := by
      intro x hx he
      exact hnd2.1 ((hinj j (List.mem_cons_self j rest) x (List.mem_cons_of_mem j hx) he) ▸ hx)
    rw [modify_scan] at hb ⊢
    by_cases h1 : 0 < SLACK s j
    · rw [if_pos h1] at hb ⊢
      by_cases h2 : SLACK (setSlack s j (SLACK s j - 2 * th)) j = 0
      · rw [if_pos h2] at hb ⊢
        by_cases h3 : MATE (setSlack s j (SLACK s j - 2 * th)) j = blank
        · rw [if_pos h3] at hb
          simp at hb
        · rw [if_neg h3] at hb ⊢
          have hsx : ∀ x,
              SLACK (add_arc
                (stack_push (setSlack s j (SLACK s j - 2 * th))
                  (NHBOR (setSlack s j (SLACK s j - 2 * th)) j))
                (NHBOR (setSlack s j (SLACK s j - 2 * th)) j)
                (MATE (setSlack s j (SLACK s j - 2 * th)) j)) x =
              if x - s.n = j - s.n then SLACK s j - 2 * th else SLACK s x := by
            intro x
            simp only [SLACK_add_arc, SLACK_stack_push, SLACK_setSlack]
          have hn2 : (add_arc
              (stack_push (setSlack s j (SLACK s j - 2 * th))
                (NHBOR (setSlack s j (SLACK s j - 2 * th)) j))
              (NHBOR (setSlack s j (SLACK s j - 2 * th)) j)
              (MATE (setSlack s j (SLACK s j - 2 * th)) j)).n = n0 := htn
          obtain ⟨hin, hout⟩ := ih hinj2 hnd2.2 _ hn2 hb
          constructor
          · intro k hk
            rcases List.mem_cons.mp hk with rfl | hk2
            · rw [hout k havoid, hsx k, if_pos rfl, if_pos h1]
            · have hka : k - n0 ≠ j - n0 := by
                intro he
                exact hnd2.1 ((hinj k hk j (List.mem_cons_self j rest) he) ▸ hk2)
              have hka2 : k - s.n ≠ j - s.n := by rw [htn]; exact hka
              rw [hin k hk2, hsx k, if_neg hka2]
          · intro k hk
            have hka2 : k - s.n ≠ j - s.n := by rw [htn]; exact hk j (List.mem_cons_self j rest)
            rw [hout k (fun x hx => hk x (List.mem_cons_of_mem j hx)), hsx k, if_neg hka2]
      · rw [if_neg h2] at hb ⊢
        have hsx : ∀ x, SLACK (setSlack s j (SLACK s j - 2 * th)) x =
            if x - s.n = j - s.n then SLACK s j - 2 * th else SLACK s x := by
          intro x
          simp only [SLACK_setSlack]
        have hn2 : (setSlack s j (SLACK s j - 2 * th)).n = n0 := htn
        obtain ⟨hin, hout⟩ := ih hinj2 hnd2.2 _ hn2 hb
        constructor
        · intro k hk
          rcases List.mem_cons.mp hk with rfl | hk2
          · rw [hout k havoid, hsx k, if_pos rfl, if_pos h1]
          · have hka : k - n0 ≠ j - n0 := by
              intro he
              exact hnd2.1 ((hinj k hk j (List.mem_cons_self j rest) he) ▸ hk2)
            have hka2 : k - s.n ≠ j - s.n := by rw [htn]; exact hka
            rw [hin k hk2, hsx k, if_neg hka2]
        · intro k hk
          have hka2 : k - s.n ≠ j - s.n := by rw [htn]; exact hk j (List.mem_cons_self j rest)
          rw [hout k (fun x hx => hk x (List.mem_cons_of_mem j hx)), hsx k, if_neg hka2]
    · rw [if_neg h1] at hb ⊢
      obtain ⟨hin, hout⟩ := ih hinj2 hnd2.2 s htn hb
      constructor
      · intro k hk
        rcases List.mem_cons.mp hk with rfl | hk2
        · rw [hout k havoid, if_neg h1]
        · exact hin k hk2
      · intro k hk
        exact hout k (fun x hx => hk x (List.mem_cons_of_mem j hx))

lemma dual_update_facts (s : HMState) (th : Int) :
    (beta_update (alpha_update s th) th).n = s.n ∧
    (∀ i j, Cmat (beta_update (alpha_update s th) th) i j = Cmat s i j) ∧
    (∀ j, SLACK (beta_update (alpha_update s th) th) j = SLACK s j) ∧
    (∀ i, LABEL (beta_update (alpha_update s th) th) i = LABEL s i) ∧
    (∀ i, COUNT (beta_update (alpha_update s th) th) i = COUNT s i) ∧
    (∀ i ∈ eachV s.n, ALPHA (beta_update (alpha_update s th) th) i =
      if LABEL s i ≠ blank ∨ 0 < COUNT s i then ALPHA s i + th else ALPHA s i - th) ∧
    (∀ j ∈ eachU s.n, BETA (beta_update (alpha_update s th) th) j =
      if SLACK s j = 0 then BETA s j - th else BETA s j + th) := by
  obtain ⟨al, hal⟩ := alpha_update_frame s th
  obtain ⟨be, hbe⟩ := beta_update_frame (alpha_update s th) th
  refine ⟨?_, ?_, ?_, ?_, ?_, ?_, ?_⟩
  · rw [hbe, hal]
  · intro i j
    unfold Cmat
    rw [hbe, hal]
  · intro j
    unfold SLACK
    rw [hbe, hal]
  · intro i
    unfold LABEL
    rw [hbe, hal]
  · intro i
    unfold COUNT
    rw [hbe, hal]
  · intro i hi
    have h1 : ALPHA (beta_update (alpha_update s th) th) i = ALPHA (alpha_update s th) i := by
      unfold ALPHA
      rw [hbe]
    rw [h1, alpha_update_spec s th i hi]
  · intro j hj
    obtain ⟨hsl, hbt, hn2⟩ := alpha_update_preserves s th
    have hj2 : j ∈ eachU (alpha_update s th).n := by rw [hn2]; exact hj
    rw [beta_update_spec _ th j hj2, hsl, hbt]

lemma dual_update_feasible (s : HMState) (th : Int) (hF : Feasible s) (hS : SlackNonneg s)
    (hD : SlackDominates s) (hth0 : 0 ≤ th)
    (hth2 : ∀ j ∈ eachU s.n, 0 < SLACK s j → 2 * th ≤ SLACK s j) :
    Feasible (beta_update (alpha_update s th) th) := by
  obtain ⟨hn, hC, hSl, hL, hCnt, hA, hB⟩ := dual_update_facts s th
  intro i hi j hj
  rw [hn] at hi hj
  rw [hC, hA i hi, hB j hj]
  by_cases hact : LABEL s i ≠ blank ∨ 0 < COUNT s i
  · rw [if_pos hact]
    by_cases hsl0 : SLACK s j = 0
    · rw [if_pos hsl0]
      have := hF i hi j hj
      omega
    · rw [if_neg hsl0]
      have hp : 0 < SLACK s j := by have := hS j hj; omega
      have h2 := hD i hi hact j hj
      have h3 := hth2 j hj hp
      omega
  · rw [if_neg hact]
    have h1 := hF i hi j hj
    by_cases hsl0 : SLACK s j = 0
    · rw [if_pos hsl0]
      omega
    · rw [if_neg hsl0]
      omega

lemma hm_modify_inv (s : HMState) (h : StageInv s) :
    Feasible (hm_modify s).1 ∧ ((hm_modify s).2 = true → StageInv (hm_modify s).1) := by
  obtain ⟨hF, hS, hD⟩ := h
  have hθ0 : 0 ≤ theta_one_of s := theta_one_of_nonneg s hS
  obtain ⟨hth0, hth1⟩ := idiv_two_facts (theta_one_of s) hθ0
  have hth2 : ∀ j ∈ eachU s.n, 0 < SLACK s j → 2 * idiv (theta_one_of s) 2 ≤ SLACK s j := by
    intro j hj hp
    have := theta_one_of_le s j hj hp
    omega
  obtain ⟨hn, hC, hSl, hL, hCnt, hA, hB⟩ := dual_update_facts s (idiv (theta_one_of s) 2)
  have hFsb :
      Feasible (beta_update (alpha_update s (idiv (theta_one_of s) 2))
        (idiv (theta_one_of s) 2)) :=
    dual_update_feasible s _ hF hS hD hth0 hth2
  have hmod : hm_modify s =
      modify_scan
        (beta_update (alpha_update s (idiv (theta_one_of s) 2)) (idiv (theta_one_of s) 2))
        (idiv (theta_one_of s) 2) (eachU s.n) := rfl
  obtain ⟨sl2, qq2, ar2, e2, m2, hfr⟩ :=
    modify_scan_frame (eachU s.n)
      (beta_update (alpha_update s (idiv (theta_one_of s) 2)) (idiv (theta_one_of s) 2))
      (idiv (theta_one_of s) 2)
  have hFres : Feasible (hm_modify s).1 := by
    rw [hmod, hfr]
    exact hFsb
  refine ⟨hFres, ?_⟩
  intro hb
  rw [hmod] at hb
  obtain ⟨hin, hout⟩ := modify_scan_true_slack (idiv (theta_one_of s) 2) s.n (eachU s.n)
    (eachU_offset_inj s.n) (nodup_eachU s.n) _ hn hb
  have hrn : (hm_modify s).1.n = s.n := by
    rw [hmod, hfr]
    exact hn
  have hrC : ∀ i j, Cmat (hm_modify s).1 i j = Cmat s i j := by
    intro i j
    unfold Cmat
    rw [hmod, hfr]
    exact hC i j
  have hrA : ∀ i, ALPHA (hm_modify s).1 i =
      ALPHA (beta_update (alpha_update s (idiv (theta_one_of s) 2))
        (idiv (theta_one_of s) 2)) i := by
    intro i
    unfold ALPHA
    rw [hmod, hfr]
  have hrB : ∀ j, BETA (hm_modify s).1 j =
      BETA (beta_update (alpha_update s (idiv (theta_one_of s) 2))
        (idiv (theta_one_of s) 2)) j := by
    intro j
    unfold BETA
    rw [hmod, hfr]
  have hrL : ∀ i, LABEL (hm_modify s).1 i = LABEL s i := by
    intro i
    unfold LABEL
    rw [hmod, hfr]
    exact hL i
  have hrCnt : ∀ i, COUNT (hm_modify s).1 i = COUNT s i := by
    intro i
    unfold COUNT
    rw [hmod, hfr]
    exact hCnt i
  have hrS : ∀ k ∈ eachU s.n, SLACK (hm_modify s).1 k =
      if 0 < SLACK s k then SLACK s k - 2 * idiv (theta_one_of s) 2 else SLACK s k := by
    intro k hk
    have h1 := hin k hk
    rw [hSl k] at h1
    rw [hmod]
    exact h1
  refine ⟨hFres, ?_, ?_⟩
  · intro j hj
    rw [hrn] at hj
    rw [hrS j hj]
    split
    · next hp =>
      have := hth2 j hj hp
      omega
    · next hp =>
      have := hS j hj
      omega
  · intro i hi hact j hj
    rw [hrn] at hi hj
    have hact2 : LABEL s i ≠ blank ∨ 0 < COUNT s i := by
      rcases hact with hl | hc
      · left
        rwa [hrL] at hl
      · right
        rwa [hrCnt] at hc
    rw [hrS j hj, hrC, hrA, hrB, hA i hi, hB j hj, if_pos hact2]
    by_cases hsl0 : SLACK s j = 0
    · rw [if_pos hsl0, if_neg (by omega : ¬0 < SLACK s j)]
      have := hF i hi j hj
      omega
    · have hp : 0 < SLACK s j := by
        have := hS j hj
        omega
      rw [if_neg hsl0, if_pos hp]
      have h2 := hD i hi hact2 j hj
      omega

lemma hm_construct_stageinv (s : HMState) (hF : Feasible s) :
    StageInv (hm_construct_auxiliary_graph s) := by
  obtain ⟨ar, e, l, cnt, sl, nh, hcon⟩ := hm_construct_frame s
  have hn : (hm_construct_auxiliary_graph s).n = s.n := by rw [hcon]
  obtain ⟨hVr, hUr⟩ := hm_construct_spec s
  refine ⟨?_, ?_, ?_⟩
  · intro i hi j hj
    rw [hn] at hi hj
    have hC : Cmat (hm_construct_auxiliary_graph s) i j = Cmat s i j := by
      unfold Cmat
      rw [hcon]
    have hA : ALPHA (hm_construct_auxiliary_graph s) i = ALPHA s i := by
      unfold ALPHA
      rw [hcon]
    have hB : BETA (hm_construct_auxiliary_graph s) j = BETA s j := by
      unfold BETA
      rw [hcon]
    rw [hC, hA, hB]
    exact hF i hi j hj
  · intro j hj
    rw [hn] at hj
    rw [(hUr j hj).1]
    decide
  · intro i hi hact j hj
    rw [hn] at hi
    obtain ⟨hLb, hC0⟩ := hVr i hi
    exfalso
    rcases hact with hl | hc
    · exact hl hLb
    · rw [hC0] at hc
      exact absurd hc (lt_irrefl 0)

lemma stage_loop_feasible (sf : Nat) :
    ∀ (f : Nat) (s : HMState), StageInv s → Feasible (stage_loop sf f s) := by
  intro f
  induction f with
  | zero => intro s h; exact h.1
  | succ f ih =>
    intro s h
    rw [stage_loop]
    rcases hs : hm_search sf s with ⟨s1, b1⟩
    have hs2 : search_go sf s = (s1, b1) := hs
    have hse := search_go_inv sf s h
    rw [hs2] at hse
    dsimp only at hse
    cases b1
    · exact hse.1
    · have h1 : StageInv s1 := hse.2 rfl
      dsimp only
      rcases hmo : hm_modify s1 with ⟨s2, b2⟩
      have hmi := hm_modify_inv s1 h1
      rw [hmo] at hmi
      dsimp only at hmi
      cases b2
      · exact hmi.1
      · exact ih s2 (hmi.2 rfl)

lemma hm_stage_feasible (sf lf : Nat) (s : HMState) (hF : Feasible s) :
    Feasible (hm_stage sf lf s) := by
  rw [hm_stage]
  have h1 : StageInv (hm_construct_auxiliary_graph s) := hm_construct_stageinv s hF
  rcases hp : hm_pre_search (hm_construct_auxiliary_graph s) with ⟨s2, b⟩
  have hpi := hm_pre_search_inv _ h1
  rw [hp] at hpi
  dsimp only at hpi
  cases b
  · exact hpi.1
  · exact stage_loop_feasible sf lf s2 (hpi.2 rfl)

lemma run_stages_feasible (sf lf : Nat) :
    ∀ (k : Nat) (s : HMState), Feasible s → Feasible (run_stages sf lf k s) := by
  intro k
  induction k with
  | zero => intro s h; exact h
  | succ k ih =>
    intro s h
    rw [run_stages]
    exact ih _ (hm_stage_feasible sf lf s h)

/-- Claim C3: at every point between stages of `hungarian_method` the dual
potentials are feasible on the doubled-cost scale: `hm_initialize`
establishes `alpha[v] + beta[u] ≤ C[v][u]` for every `v ∈ V`, `u ∈ U`
(with `alpha ≡ 0` and `beta[u] = min_v C[v][u]`), each full stage
(auxiliary-graph construction, pre-search, and the search/modify rounds
with their dual updates) preserves it, and hence it holds after every
prefix of the stage loop that `hungarian_method` runs on the doubled
cost matrix. -/
theorem dual_feasibility_invariant :
    (∀ s : HMState, Feasible ( hm_initialize s)) ∧
    (∀ (sf lf : Nat) (s : HMState), Feasible s → Feasible (hm_stage sf lf s)) ∧
    (∀ (mate c : Int → Int) (n : Int) (k : Nat),
      Feasible (run_stages (search_fuel n) (loop_fuel n) k
        { hm_initialize
            { mate := mate, c := scale_costs (fun x => x * 2) n c, n := n, q := [], a := [],
              alpha := fun _ => 0, beta := fun _ => 0, slack := fun _ => 0,
              nhbor := fun _ => 0, count := fun _ => 0, exposed := fun _ => 0,
              label := fun _ => 0 } with
          q := [], a := [] })) := by
  refine ⟨hm_initialize_feasible, hm_stage_feasible, ?_⟩
  intro mate c n k
  refine run_stages_feasible _ _ k _ ?_
  exact hm_initialize_feasible _

/-- A concrete 1×1 all-zero state for exercising the stage-preservation
part of `dual_feasibility_invariant`. -/
def c3_state : HMState :=
  { mate := fun _ => -1, c := fun _ => 0, n := 1, q := [], a := [],
    alpha := fun _ => 0, beta := fun _ => 0, slack := fun _ => 0,
    nhbor := fun _ => -1, count := fun _ => 0, exposed := fun _ => -1,
    label := fun _ => -1 }

/-- Witness for C3 at `c3_state`: the state is dual-feasible, and running
one full stage on it preserves dual feasibility. -/
theorem dual_feasibility_invariant_witness :
    Feasible c3_state ∧ Feasible (hm_stage 1 1 c3_state) :=
  ⟨by unfold Feasible; decide,
    dual_feasibility_invariant.2.1 1 1 c3_state (by unfold Feasible; decide)⟩

/-! ### Claim C7: the boundary cases `n = 0` and `n = 1` -/

/-- The internal state `hungarian_method` builds for `n = 1` before
initialization (cost buffer already doubled). -/
def c7_start (mate c : Int → Int) : HMState :=
  { mate := mate, c := scale_costs (fun x => x * 2) 1 c, n := 1, q := [], a := [],
    alpha := fun _ => 0, beta := fun _ => 0, slack := fun _ => 0,
    nhbor := fun _ => 0, count := fun _ => 0, exposed := fun _ => 0,
    label := fun _ => 0 }

/-- The state after `hm_initialize` for `n = 1` (when the doubled cost
entry is below `INT_MAX`): both mates blank, `alpha[0] = 0`,
`beta[1] = 2·c[0][0]`. -/
def c7_init (mate c : Int → Int) : HMState :=
  setBeta
    (setBeta (setMate (setAlpha (setMate (c7_start mate c) 0 blank) 0 0) 1 blank) 1 INT_MAX)
    1 (c 0 * 2)

/-- The state after `hm_construct_auxiliary_graph` in stage 1 for `n = 1`:
the single edge is admissible and its U-vertex is unmatched, so
`exposed[0] = 1`. -/
def c7_graph (mate c : Int → Int) : HMState :=
  setExposed
    (setNhbor
      (setSlack
        (setCount
          (setLabel
            (setExposed { { c7_init mate c with q := [], a := [] } with a := [] } 0 blank)
            0 blank)
          0 0)
        1 INT_MAX)
      1 blank)
    0 1

/-- Claim C7: for `n = 0`, a successful `hungarian_method` call returns its
`mate` argument with an empty matching, touching neither the mate buffer
nor the cost matrix; for `n = 1` (given that the doubled cost entry does
not overflow), it returns the trivial pairing `mate[0] = 1`, `mate[1] = 0`,
whose total cost is `cost[0][0]`. -/
theorem boundary_cases :
    (∀ (mate c : Int → Int), hungarian_method true mate c 0 = (some mate, mate, c)) ∧
    (∀ (mate c : Int → Int), 2 * c 0 < INT_MAX →
      (hungarian_method true mate c 1).1 = some ((hungarian_method true mate c 1).2.1) ∧
      (hungarian_method true mate c 1).2.1 0 = 1 ∧
      (hungarian_method true mate c 1).2.1 1 = 0 ∧
      total_cost ((hungarian_method true mate c 1).2.1) c 1 = c 0) := by
  constructor
  · intro mate c
    rfl
  · intro mate c hlt
    have heV1 : eachV (c7_start mate c).n = [0] := by
      show eachV (1 : Int) = [0]
      decide
    have heU1 : eachU (c7_start mate c).n = [1] := by
      show eachU (1 : Int) = [1]
      decide
    have hI : hm_initialize (c7_start mate c) = c7_init mate c := by
      unfold hm_initialize
      rw [heV1, heU1]
      simp only [List.foldl_cons, List.foldl_nil]
      split
      · rfl
      · next hcond =>
        exfalso
        apply hcond
        show c 0 * 2 < INT_MAX
        omega
    have hG : hm_construct_auxiliary_graph { c7_init mate c with q := [], a := [] } =
        c7_graph mate c := by
      unfold hm_construct_auxiliary_graph
      have heV2 : eachV ({ c7_init mate c with q := [], a := [] } : HMState).n = [0] := by
        show eachV (1 : Int) = [0]
        decide
      have heU2 : eachU ({ c7_init mate c with q := [], a := [] } : HMState).n = [1] := by
        show eachU (1 : Int) = [1]
        decide
      rw [heV2, heU2]
      simp only [List.foldl_cons, List.foldl_nil]
      split
      · rfl
      · next hcond =>
        exfalso
        apply hcond
        show (0 : Int) + c 0 * 2 = c 0 * 2
        omega
    have hmate0 : MATE { c7_graph mate c with q := [] } 0 = blank := rfl
    have hexp0 : EXPOSED { c7_graph mate c with q := [] } 0 ≠ blank := by
      show (1 : Int) ≠ blank
      decide
    have hP : hm_pre_search (c7_graph mate c) =
        (hm_augment { c7_graph mate c with q := [] } 0, false) := by
      unfold hm_pre_search
      have heV3 : eachV (c7_graph mate c).n = [0] := by
        show eachV (1 : Int) = [0]
        decide
      rw [heV3]
      rw [pre_search_go, if_pos hmate0, if_pos hexp0]
    have hstage :
        hm_stage (search_fuel 1) (loop_fuel 1)
          { hm_initialize (c7_start mate c) with q := [], a := [] } =
        hm_augment { c7_graph mate c with q := [] } 0 := by
      rw [hI, hm_stage, hG, hP]
    have hred : (hungarian_method true mate c 1).2.1 =
        (hm_stage (search_fuel 1) (loop_fuel 1)
          { hm_initialize (c7_start mate c) with q := [], a := [] }).mate := rfl
    have hm0 : (hungarian_method true mate c 1).2.1 0 = 1 := by
      rw [hred, hstage]
      rfl
    have hm1 : (hungarian_method true mate c 1).2.1 1 = 0 := by
      rw [hred, hstage]
      rfl
    refine ⟨rfl, hm0, hm1, ?_⟩
    unfold total_cost
    rw [show eachV (1 : Int) = [0] from by decide]
    simp only [List.foldl_cons, List.foldl_nil]
    rw [hm0]
    norm_num

/-- Witness for C7 at `n = 1` with the all-zero cost matrix: the overflow
precondition holds and the trivial pairing is returned. -/
theorem boundary_cases_witness :
    2 * (fun _ : Int => (0 : Int)) 0 < INT_MAX ∧
    ((hungarian_method true (fun _ : Int => (0 : Int)) (fun _ : Int => (0 : Int)) 1).1 =
        some ((hungarian_method true (fun _ : Int => (0 : Int)) (fun _ : Int => (0 : Int)) 1).2.1) ∧
      (hungarian_method true (fun _ : Int => (0 : Int)) (fun _ : Int => (0 : Int)) 1).2.1 0 = 1 ∧
      (hungarian_method true (fun _ : Int => (0 : Int)) (fun _ : Int => (0 : Int)) 1).2.1 1 = 0 ∧
      total_cost ((hungarian_method true (fun _ : Int => (0 : Int))
          (fun _ : Int => (0 : Int)) 1).2.1) (fun _ : Int => (0 : Int)) 1 =
        (fun _ : Int => (0 : Int)) 0) :=
  ⟨by decide, boundary_cases.2 (fun _ => 0) (fun _ => 0) (by decide)⟩
